import Mathlib

/-!
Verification of the VLP v1.1 runtime (`src/python/src/vlp/runtime.py`) and
session registry (`src/python/src/vlp/sessions.py`).

Modelling conventions:
* Python `float` values are modelled as `ℚ` (the code only compares
  confidences against the literal `0.9` and defaults; no float rounding is
  exercised by any claim).  Rational literals are written as raw
  `Rat.mk'`-style structure literals so that they reduce in the kernel.
* Python strings are Lean `String`s; the character-level operations
  (`str.lower`, `str.strip`, `str.replace`, slicing) are embedded below on
  `List Char`.  `str.lower` is modelled by ASCII case-mapping (the code and
  the claims only exercise ASCII inputs).
* Nondeterministic inputs (uuid-derived ids, clock readings) are passed as
  explicit parameters.
* `dict`-shaped messages are modelled by the `Msg` structure, whose fields
  are exactly the keys `make_message` writes.
-/

namespace VLP

/-! ### Python string primitives -/

/-- ASCII case mapping, the fragment of Python `str.lower` exercised here. -/
def py_lower_char (c : Char) : Char :=
  if 65 ≤ c.toNat ∧ c.toNat ≤ 90 then Char.ofNat (c.toNat + 32) else c

def py_lower_list (l : List Char) : List Char := l.map py_lower_char

/-- Python `str.lower`. -/
def py_lower (s : String) : String := ⟨py_lower_list s.data⟩

/-- The whitespace characters recognised by Python `str.strip()` /
`str.isspace` (ASCII fragment). -/
def is_py_space (c : Char) : Bool :=
  c.toNat = 32 ∨ c.toNat = 9 ∨ c.toNat = 10 ∨ c.toNat = 13 ∨ c.toNat = 11 ∨ c.toNat = 12

/-- Remove trailing whitespace. -/
def trim_right : List Char → List Char
  | [] => []
  | c :: t =>
    if trim_right t = [] ∧ is_py_space c then [] else c :: trim_right t

def py_strip_list (l : List Char) : List Char := trim_right (l.dropWhile is_py_space)

/-- Python `str.strip()`. -/
def py_strip (s : String) : String := ⟨py_strip_list s.data⟩

/-- `pat` is a prefix of the second list. -/
def starts_with : List Char → List Char → Bool
  | [], _ => true
  | _ :: _, [] => false
  | p :: ps, c :: cs => p = c ∧ starts_with ps cs

/-- Fuel-driven body of Python `str.replace` (left-to-right, non-overlapping,
all occurrences).  The fuel is the length of the scanned list, which suffices
for every non-empty pattern; the code only replaces `"the "` and `" "`. -/
def replace_fuel : Nat → List Char → List Char → List Char → List Char
  | 0, _, _, s => s
  | _ + 1, _, _, [] => []
  | f + 1, pat, repl, c :: cs =>
    if starts_with pat (c :: cs) then
      repl ++ replace_fuel f pat repl (List.drop pat.length (c :: cs))
    else
      c :: replace_fuel f pat repl cs

/-- Python `s.replace(pat, repl)` for non-empty `pat`. -/
def py_replace (s pat repl : String) : String :=
  ⟨replace_fuel s.data.length pat.data repl.data s.data⟩

/-- Python `s[:n]`. -/
def take_n (n : Nat) (s : String) : String := ⟨s.data.take n⟩

/-- Python `s[-n:]` (the whole string when it is shorter than `n`). -/
def take_right (n : Nat) (s : String) : String := ⟨s.data.drop (s.data.length - n)⟩

/-- Little-endian decimal digits of `n` as characters (fuel-driven). -/
def nat_digits_rev : Nat → Nat → List Char
  | 0, _ => []
  | f + 1, n => if n = 0 then [] else Char.ofNat (48 + n % 10) :: nat_digits_rev f (n / 10)

/-- Decimal rendering of a natural number, as Python `str(n)`. -/
def nat_str (n : Nat) : String := if n = 0 then "0" else ⟨(nat_digits_rev n n).reverse⟩

/-- Decimal rendering of an integer, as Python `str(i)` / f-string interpolation. -/
def int_str (i : Int) : String := if i < 0 then "-" ++ nat_str i.natAbs else nat_str i.natAbs

/-- Zero-pad on the left to width `w`, as Python `"{:0wd}".format`. -/
def zero_pad (w : Nat) (s : String) : String :=
  ⟨List.replicate (w - s.data.length) '0' ++ s.data⟩

/-- Python `f"{n:04d}"`. -/
def pad4 (n : Nat) : String := zero_pad 4 (nat_str n)

/-! ### Data model (`runtime.py`) -/

/-- One entry of `safety["issues"]`. -/
structure SafetyIssue where
  code : String
  detail : String
deriving DecidableEq

/-- The `safety` sub-object of a message. -/
structure Safety where
  level : String
  issues : List SafetyIssue
deriving DecidableEq

/-- The `payload` written by `end_session` (the only structured payload the
repository constructs). -/
structure Payload where
  agent_number : Int
  started_at : String
  ended_at : String
  total_messages : Nat
deriving DecidableEq

/-- A VLP message: exactly the keys the builder `make_message` writes.
`confidence` is an `Option` so that the validator's missing-confidence rule is
expressible for hand-built messages. -/
structure Msg where
  id : String
  protocol : String
  type : String
  timestamp : String
  session_id : Option String
  seq : Option Nat
  sender : String
  receiver : Option String
  topic : Option String
  content : String
  confidence : Option ℚ
  provenance : List String
  constraints : List String
  safety : Safety
  refers_to : Option String
  keywords : List String
  payload : Option Payload
deriving DecidableEq

/-- A caller-supplied optional list argument, before `_as_list` normalization:
absent (or `None`), a scalar, or already a list. -/
inductive ListArg (α : Type) where
  | absent
  | scalar (a : α)
  | list (l : List α)
deriving DecidableEq

/-- `kw.get(name, [])` followed by `_as_list` for non-list values. -/
def ListArg.normalize {α : Type} : ListArg α → List α
  | .absent => []
  | .scalar a => [a]
  | .list l => l

/-- A caller-supplied `safety` dict: each key may be missing.  A non-dict
value collapses to the same default as an absent one in the source, so both
are modelled by `none` at the `Option SafetyArg` use sites. -/
structure SafetyArg where
  level : Option String
  issues : Option (List SafetyIssue)
deriving DecidableEq

/-- The keyword arguments accepted by `make_message`. -/
structure BuildArgs where
  type : String
  sender : String
  content : String
  id : Option String
  timestamp : Option String
  session_id : Option String
  seq : Option Nat
  receiver : Option String
  topic : Option String
  confidence : Option ℚ
  provenance : ListArg String
  constraints : ListArg String
  safety : Option SafetyArg
  refers_to : Option String
  keywords : ListArg String
  payload : Option Payload
deriving DecidableEq

/-- The literal `0.9`, written as a raw rational so it reduces in the kernel. -/
def pt9 : ℚ := ⟨9, 10, by norm_num, by norm_num⟩

theorem pt9_eq : pt9 = 9 / 10 := by
  rw [pt9]
  norm_num [Rat.mk'_eq_divInt, Rat.divInt_eq_div]

/-! ### Validation (`runtime.py` lines 36–95) -/

/-- The type tags admitted by the protocol (spec §3). -/
def valid_types : List String :=
  ["claim", "evidence", "query", "response", "correction", "notice", "session_context"]

/-- Modelled from the spec: the structural (JSON-schema) validation step of
`validate_vlp`.  The schema document `vlp-1.1.json` is not part of the
repository snapshot (only the loader `schema.py` is), so this step is modelled
from spec §4.1 Step 1 / §6: required-field presence and field types hold by
construction of `Msg`, leaving enumerated-value membership of `type`. -/
def structural_validate (m : Msg) : Bool × Option String :=
  if m.type ∈ valid_types then (true, none)
  else (false, some "schema violation: type is not one of the enumerated values")

/-- Python truthiness of an optional string (`None` and `""` are falsy). -/
def opt_str_truthy : Option String → Bool
  | none => false
  | some s => s ≠ ""

/-- `str((safety or {}).get("level") or "safe")`: a falsy level reads as
`"safe"`. -/
def effective_level (s : Safety) : String := if s.level = "" then "safe" else s.level

/-- `_semantic_validate` (runtime.py lines 36–78).  `confidence` is a number
whenever present (floats are modelled as `ℚ`), so the `float(conf)` conversion
never fails in the model. -/
def _semantic_validate (m : Msg) : Bool × Option String :=
  if py_strip m.type ≠ py_lower (py_strip m.type) then
    (false, some "type must be lowercase")
  else if m.confidence = none then
    (false, some "confidence is required")
  else if py_strip m.type = "evidence" ∧ opt_str_truthy m.refers_to = false then
    (false, some "evidence messages must include refers_to")
  else if py_strip m.type = "evidence" ∧ m.provenance = [] then
    (false, some "evidence messages must include non-empty provenance")
  else if (py_strip m.type = "response" ∨ py_strip m.type = "correction") ∧
      opt_str_truthy m.refers_to = false then
    (false, some (py_strip m.type ++ " messages must include refers_to"))
  else if pt9 ≤ m.confidence.getD 1 ∧ m.provenance = [] ∧
      effective_level m.safety ≠ "review" then
    (false, some "confidence >= 0.9 requires provenance or safety.level=review")
  else
    (true, none)

/-- `validate_vlp` (runtime.py lines 81–95): structural check, then semantic. -/
def validate_vlp (m : Msg) : Bool × Option String :=
  if (structural_validate m).1 = false then structural_validate m
  else _semantic_validate m

/-! ### The builder (`make_message`, runtime.py lines 98–174) -/

/-- The issue appended by the auto-escalation policy. -/
def escalation_issue : SafetyIssue :=
  ⟨"missing_provenance_high_confidence", "confidence >= 0.9 without provenance"⟩

/-- Normalization of the `safety` keyword argument (runtime.py lines 126–132). -/
def norm_safety : Option SafetyArg → Safety
  | none => ⟨"safe", []⟩
  | some a => ⟨a.level.getD "safe", a.issues.getD []⟩

/-- The v1.1 auto-escalation policy (runtime.py lines 134–140). -/
def escalate (conf : ℚ) (prov : List String) (s0 : Safety) : Safety :=
  if pt9 ≤ conf ∧ prov = [] ∧ s0.level ≠ "review" then
    ⟨"review", s0.issues ++ [escalation_issue]⟩
  else s0

/-- `dict.fromkeys`-style deduplication keeping first occurrences. -/
def dedup_first (seen : List String) : List String → List String
  | [] => []
  | k :: t => if k ∈ seen then dedup_first seen t else k :: dedup_first (k :: seen) t

/-- Keyword normalization (runtime.py lines 145–148): keep entries whose strip
is non-empty, map each to `k.lower().strip()`, and deduplicate keeping first
occurrences.  (The `isinstance(k, str)` guard is by typing here.) -/
def norm_keywords (ks : List String) : List String :=
  dedup_first [] ((ks.filter (fun k => py_strip k ≠ "")).map (fun k => py_strip (py_lower k)))

/-- `kw.get(key) or fallback` for the `id` and `timestamp` fields. -/
def falsy_or : Option String → String → String
  | none, d => d
  | some s, d => if s = "" then d else s

/-- The message assembled by `make_message` before validation (runtime.py
lines 119–169).  `fresh_id` models `new_id()` and `now_ts` models
`now_iso()`. -/
def build_msg (args : BuildArgs) (fresh_id now_ts : String) : Msg where
  id := falsy_or args.id fresh_id
  protocol := "VLP/1.1"
  type := py_lower (py_strip args.type)
  timestamp := falsy_or args.timestamp now_ts
  session_id := args.session_id
  seq := args.seq
  sender := args.sender
  receiver := args.receiver
  topic := args.topic
  content := args.content
  confidence := some (args.confidence.getD 1)
  provenance := args.provenance.normalize
  constraints := args.constraints.normalize
  safety := escalate (args.confidence.getD 1) args.provenance.normalize (norm_safety args.safety)
  refers_to := args.refers_to
  keywords := norm_keywords args.keywords.normalize
  payload := args.payload

/-- `make_message` (runtime.py lines 98–174): build, validate, and either
return the message or raise `ValueError` (modelled as `Except.error`). -/
def make_message (args : BuildArgs) (fresh_id now_ts : String) : Except String Msg :=
  if (validate_vlp (build_msg args fresh_id now_ts)).1 then
    .ok (build_msg args fresh_id now_ts)
  else
    .error ("VLP validation failed: " ++ (validate_vlp (build_msg args fresh_id now_ts)).2.getD "None")

/-! ### Sessions (`sessions.py`) -/

/-- `AgentSession` state: the mutable `seq` counter is modelled by explicit
state passing, which is the serialized (linearized) semantics of the
lock-protected Python counter. -/
structure AgentSession where
  agent_name : String
  agent_number : Int
  session_id : String
  started_at : String
  seq : Nat
deriving DecidableEq

/-- `datetime.strftime("%Y-%m-%d")`: zero-padded 4-digit year and 2-digit
month and day, separated by hyphens. -/
def strf_date (y mo d : Nat) : String :=
  zero_pad 4 (nat_str y) ++ "-" ++ zero_pad 2 (nat_str mo) ++ "-" ++ zero_pad 2 (nat_str d)

/-- `AgentSession._generate_session_id` (sessions.py lines 42–48).  The UTC
date components and the uuid-derived 6-character suffix are parameters. -/
def _generate_session_id (agent_name : String) (y mo d : Nat) (suffix : String) : String :=
  "S-" ++ strf_date y mo d ++ "-" ++
    take_n 12 (py_replace (py_replace (py_lower agent_name) "the " "") " " "-") ++
    "-" ++ suffix

/-- `AgentSession.__init__` (sessions.py lines 27–40): the counter starts at 0. -/
def AgentSession.init (agent_name : String) (agent_number : Int) (y mo d : Nat)
    (suffix started_at : String) : AgentSession :=
  ⟨agent_name, agent_number, _generate_session_id agent_name y mo d suffix, started_at, 0⟩

/-- `AgentSession.next_seq` (sessions.py lines 50–54): increment, return. -/
def next_seq (s : AgentSession) : AgentSession × Nat :=
  ({ s with seq := s.seq + 1 }, s.seq + 1)

/-- `AgentSession.message_id` (sessions.py lines 56–58):
`f"{pfx}-{session_id[-6:]}-{next_seq():04d}"`; advances the counter. -/
def message_id (s : AgentSession) (pfx : String) : AgentSession × String :=
  ((next_seq s).1, pfx ++ "-" ++ take_right 6 s.session_id ++ "-" ++ pad4 (next_seq s).2)

/-- The registry's `_sessions` dict, as an association list with unique keys
(the only inserts are via `start_session`, which replaces on collision just as
dict assignment does). -/
def Registry := List (String × AgentSession)

/-- Dict lookup `self._sessions.get(session_id)`. -/
def reg_lookup : Registry → String → Option AgentSession
  | [], _ => none
  | (k, v) :: rest, key => if k = key then some v else reg_lookup rest key

/-- Dict assignment `self._sessions[k] = v`. -/
def reg_insert : Registry → String → AgentSession → Registry
  | [], k, v => [(k, v)]
  | (k', v') :: rest, k, v =>
    if k' = k then (k, v) :: rest else (k', v') :: reg_insert rest k v

/-- Dict removal `self._sessions.pop(k, None)`.  On dicts keys are unique, so
removing every matching entry coincides with removing the one entry. -/
def reg_pop (r : Registry) (k : String) : Registry :=
  r.filter (fun p => p.1 ≠ k)

/-- `AgentSessionRegistry.start_session` (sessions.py lines 80–91). -/
def start_session (reg : Registry) (agent_name : String) (agent_number : Int)
    (y mo d : Nat) (suffix started_at : String) : Registry × AgentSession :=
  ((reg_insert reg (AgentSession.init agent_name agent_number y mo d suffix started_at).session_id
      (AgentSession.init agent_name agent_number y mo d suffix started_at)),
   AgentSession.init agent_name agent_number y mo d suffix started_at)

/-- `AgentSessionRegistry.get_session` (sessions.py lines 93–96). -/
def get_session (reg : Registry) (session_id : String) : Option AgentSession :=
  reg_lookup reg session_id

/-- `AgentSessionRegistry.end_session` (sessions.py lines 98–124).
Python evaluates the `make_message` keyword arguments in source order:
`id=session.message_id("CTX")` first (one counter advance), then
`seq=session.next_seq()` (a second advance), and only then the `payload`
dict, whose `total_messages` therefore reads the doubly-advanced counter.
`msg_ts` models the `now_iso()` read inside `make_message` and `ended_ts`
the `ended_at` clock read; `new_id()` is never consulted because the
message id is always the non-empty `message_id("CTX")` result, so the
builder's fresh-id parameter is passed as `""`.
On a validation error the exception propagates before the registry `pop`. -/
def end_session (reg : Registry) (s : AgentSession) (summary : String)
    (msg_ts ended_ts : String) : Registry × AgentSession × Except String Msg :=
  match make_message
    { type := "session_context"
      sender := s.agent_name
      content := if summary = "" then "Session ended for " ++ s.agent_name else summary
      id := some (message_id s "CTX").2
      timestamp := none
      session_id := some s.session_id
      seq := some (next_seq (message_id s "CTX").1).2
      receiver := none
      topic := none
      confidence := some 1
      provenance := .list ["agent_session", "agent_" ++ int_str s.agent_number]
      constraints := .absent
      safety := none
      refers_to := none
      keywords := .absent
      payload := some ⟨s.agent_number, s.started_at, ended_ts,
        (next_seq (message_id s "CTX").1).1.seq⟩ }
    "" msg_ts with
  | .ok m => (reg_pop reg s.session_id, (next_seq (message_id s "CTX").1).1, .ok m)
  | .error e => (reg, (next_seq (message_id s "CTX").1).1, .error e)

/-- The keyword arguments `create_claim` forwards to `make_message`. -/
structure ClaimExtras where
  receiver : Option String
  topic : Option String
  timestamp : Option String
  provenance : ListArg String
  constraints : ListArg String
  safety : Option SafetyArg
  refers_to : Option String
  keywords : ListArg String
  payload : Option Payload
deriving DecidableEq

/-- All keyword arguments absent. -/
def claim_extras_default : ClaimExtras :=
  ⟨none, none, none, .absent, .absent, none, none, .absent, none⟩

/-- `AgentSessionRegistry.create_claim` (sessions.py lines 126–143).  The
Python signature defaults `confidence` to `0.9`; a caller relying on the
default corresponds to instantiating `confidence` with `pt9` here.  As in
`end_session`, `id=session.message_id("CLM")` is evaluated before
`seq=session.next_seq()`, consuming two sequence numbers. -/
def create_claim (s : AgentSession) (content : String) (confidence : ℚ)
    (kw : ClaimExtras) (msg_ts : String) : AgentSession × Except String Msg :=
  ((next_seq (message_id s "CLM").1).1,
   make_message
    { type := "claim"
      sender := s.agent_name
      content := content
      id := some (message_id s "CLM").2
      timestamp := kw.timestamp
      session_id := some s.session_id
      seq := some (next_seq (message_id s "CLM").1).2
      receiver := kw.receiver
      topic := kw.topic
      confidence := some confidence
      provenance := kw.provenance
      constraints := kw.constraints
      safety := kw.safety
      refers_to := kw.refers_to
      keywords := kw.keywords
      payload := kw.payload }
    "" msg_ts)

/-! ### Basic lemmas about the builder -/

theorem build_msg_safety (args : BuildArgs) (fid ts : String) :
    (build_msg args fid ts).safety =
      escalate (args.confidence.getD 1) args.provenance.normalize (norm_safety args.safety) := rfl

theorem build_msg_type (args : BuildArgs) (fid ts : String) :
    (build_msg args fid ts).type = py_lower (py_strip args.type) := rfl

theorem build_msg_confidence (args : BuildArgs) (fid ts : String) :
    (build_msg args fid ts).confidence = some (args.confidence.getD 1) := rfl

theorem build_msg_provenance (args : BuildArgs) (fid ts : String) :
    (build_msg args fid ts).provenance = args.provenance.normalize := rfl

theorem build_msg_refers_to (args : BuildArgs) (fid ts : String) :
    (build_msg args fid ts).refers_to = args.refers_to := rfl

theorem build_msg_keywords (args : BuildArgs) (fid ts : String) :
    (build_msg args fid ts).keywords = norm_keywords args.keywords.normalize := rfl

/-- A successful `make_message` returns exactly the assembled message. -/
theorem make_message_ok {args : BuildArgs} {fid ts : String} {m : Msg}
    (h : make_message args fid ts = .ok m) : m = build_msg args fid ts := by
  unfold make_message at h
  by_cases hv : (validate_vlp (build_msg args fid ts)).1
  · rw [if_pos hv] at h
    exact (Except.ok.injEq _ _).mp h |>.symm
  · rw [if_neg hv] at h
    exact absurd h (by simp)

/-! ### C1 -/

/-- C1: every message returned by `make_message` whose (defaulted) confidence
is at least 0.9, whose provenance normalizes to the empty list, and whose
normalized caller-supplied safety level is not `"review"`, comes back with
`safety.level = "review"` and an issue
`{code: "missing_provenance_high_confidence",
  detail: "confidence >= 0.9 without provenance"}`. -/
theorem C1_auto_escalation (args : BuildArgs) (fid ts : String) (m : Msg)
    (hok : make_message args fid ts = .ok m)
    (hconf : pt9 ≤ args.confidence.getD 1)
    (hprov : args.provenance.normalize = [])
    (hlvl : (norm_safety args.safety).level ≠ "review") :
    m.safety.level = "review" ∧ escalation_issue ∈ m.safety.issues := by
  rw [make_message_ok hok, build_msg_safety, escalate, if_pos ⟨hconf, hprov, hlvl⟩]
  exact ⟨rfl, List.mem_append_right _ (List.mem_singleton.mpr rfl)⟩

/-- The literal `0.95`. -/
def pt95 : ℚ := ⟨19, 20, by norm_num, by norm_num⟩

/-- A high-confidence claim with no provenance and default safety. -/
def c1_args : BuildArgs :=
  ⟨"claim", "TestAgent", "High confidence claim", none, none, none, none, none, none,
    some pt95, .absent, .absent, none, none, .absent, none⟩

theorem C1_auto_escalation_witness :
    (build_msg c1_args "MSG1" "2025-01-04T10:00:00Z").safety.level = "review" ∧
      escalation_issue ∈ (build_msg c1_args "MSG1" "2025-01-04T10:00:00Z").safety.issues :=
  C1_auto_escalation c1_args "MSG1" "2025-01-04T10:00:00Z" _ rfl (by decide) rfl (by decide)

/-! ### C3 -/

/-- C3: building an `evidence` message with a falsy `refers_to` fails with the
`refers_to` error — this rule is checked first, so it also names `refers_to`
when provenance is missing as well — and building one with a truthy
`refers_to` but empty-normalizing provenance fails with the provenance
error.  Both error descriptions mention the missing field. -/
theorem C3_evidence_requirements (args : BuildArgs) (fid ts : String)
    (htype : args.type = "evidence") :
    (opt_str_truthy args.refers_to = false →
      make_message args fid ts =
        .error "VLP validation failed: evidence messages must include refers_to") ∧
    (opt_str_truthy args.refers_to = true → args.provenance.normalize = [] →
      make_message args fid ts =
        .error "VLP validation failed: evidence messages must include non-empty provenance") := by
  have ht : py_strip (build_msg args fid ts).type = "evidence" := by
    rw [build_msg_type, htype]; decide
  have hst : structural_validate (build_msg args fid ts) = (true, none) := by
    unfold structural_validate
    rw [build_msg_type, htype]
    decide
  constructor
  · intro hr
    have hsem : _semantic_validate (build_msg args fid ts) =
        (false, some "evidence messages must include refers_to") := by
      unfold _semantic_validate
      rw [build_msg_refers_to, build_msg_confidence, ht]
      rw [if_neg (by decide : ¬("evidence" ≠ py_lower "evidence"))]
      rw [if_neg (by simp : ¬(some (args.confidence.getD 1) = none))]
      rw [if_pos ⟨rfl, hr⟩]
    have hv : validate_vlp (build_msg args fid ts) =
        (false, some "evidence messages must include refers_to") := by
      unfold validate_vlp
      rw [hst, hsem]
      rfl
    unfold make_message
    rw [hv]
    rfl
  · intro hr hprov
    have hsem : _semantic_validate (build_msg args fid ts) =
        (false, some "evidence messages must include non-empty provenance") := by
      unfold _semantic_validate
      rw [build_msg_refers_to, build_msg_confidence, build_msg_provenance, ht]
      rw [if_neg (by decide : ¬("evidence" ≠ py_lower "evidence"))]
      rw [if_neg (by simp : ¬(some (args.confidence.getD 1) = none))]
      rw [if_neg (by rw [hr]; rintro ⟨-, h⟩; exact absurd h (by decide))]
      rw [if_pos ⟨rfl, hprov⟩]
    have hv : validate_vlp (build_msg args fid ts) =
        (false, some "evidence messages must include non-empty provenance") := by
      unfold validate_vlp
      rw [hst, hsem]
      rfl
    unfold make_message
    rw [hv]
    rfl

/-- The literal `0.8`. -/
def pt8 : ℚ := ⟨4, 5, by norm_num, by norm_num⟩

/-- Evidence with provenance but no `refers_to`. -/
def c3a_args : BuildArgs :=
  ⟨"evidence", "Test", "Evidence without ref", none, none, none, none, none, none,
    some pt8, .list ["source"], .absent, none, none, .absent, none⟩

/-- Evidence with `refers_to` but no provenance. -/
def c3b_args : BuildArgs :=
  ⟨"evidence", "Test", "Evidence without provenance", none, none, none, none, none, none,
    some pt8, .absent, .absent, none, some "MSG001", .absent, none⟩

theorem C3_evidence_requirements_witness :
    make_message c3a_args "M1" "T1" =
      .error "VLP validation failed: evidence messages must include refers_to" ∧
    make_message c3b_args "M1" "T1" =
      .error "VLP validation failed: evidence messages must include non-empty provenance" :=
  ⟨(C3_evidence_requirements c3a_args "M1" "T1" rfl).1 rfl,
   (C3_evidence_requirements c3b_args "M1" "T1" rfl).2 rfl rfl⟩

/-! ### C9 -/

/-- C9: `create_claim` with everything defaulted (the Python signature's
`confidence=0.9` — a value the spec never states — together with absent
provenance and safety) always yields a message with confidence exactly 0.9,
`safety.level = "review"`, and the
`missing_provenance_high_confidence` issue: the default sits exactly at the
auto-escalation threshold. -/
theorem C9_create_claim_default_escalates (s : AgentSession) (content msg_ts : String) :
    ∃ m : Msg,
      (create_claim s content pt9 claim_extras_default msg_ts).2 = .ok m ∧
      m.confidence = some pt9 ∧
      m.safety.level = "review" ∧
      escalation_issue ∈ m.safety.issues := by
  refine ⟨_, rfl, rfl, rfl, ?_⟩
  exact List.mem_singleton.mpr rfl

/-! ### C4 -/

theorem reg_lookup_pop (r : Registry) (k : String) : reg_lookup (reg_pop r k) k = none := by
  induction r with
  | nil => rfl
  | cons p t ih =>
    show reg_lookup (List.filter _ (p :: t)) k = none
    rw [List.filter_cons]
    by_cases h : p.1 = k
    · rw [if_neg (by simp [h])]
      exact ih
    · rw [if_pos (by simp [h])]
      show (if p.1 = k then some p.2 else reg_lookup (reg_pop t k) k) = none
      rw [if_neg h]
      exact ih

theorem string_append_data_ne (a b : String) (h : a.data ≠ []) : (a ++ b).data ≠ [] := by
  intro hc
  rw [String.data_append] at hc
  exact h (List.append_eq_nil.mp hc).1

theorem string_append_ne_empty (a b : String) (h : a.data ≠ []) : a ++ b ≠ "" := by
  intro hc
  apply string_append_data_ne a b h
  rw [hc]

/-- C4: `end_session` consumes two sequence numbers — one inside
`session.message_id("CTX")` (which stamps `seq+1` into the message id) and one
explicit `next_seq()` (which becomes the `seq` field, `seq+2`).  The returned
`session_context` message's `payload.total_messages` is the final counter
value `seq+2`, and the ended session is no longer retrievable through
`get_session`. -/
theorem C4_end_session_double_advance (reg : Registry) (s : AgentSession)
    (summary msg_ts ended_ts : String) :
    ∃ m : Msg,
      (end_session reg s summary msg_ts ended_ts).2.2 = .ok m ∧
      m.payload = some ⟨s.agent_number, s.started_at, ended_ts, s.seq + 2⟩ ∧
      m.seq = some (s.seq + 2) ∧
      m.id = "CTX-" ++ take_right 6 s.session_id ++ "-" ++ pad4 (s.seq + 1) ∧
      (end_session reg s summary msg_ts ended_ts).2.1.seq = s.seq + 2 ∧
      get_session (end_session reg s summary msg_ts ended_ts).1 s.session_id = none := by
  refine ⟨_, rfl, rfl, rfl, ?_, rfl, reg_lookup_pop reg s.session_id⟩
  show falsy_or (some ("CTX-" ++ take_right 6 s.session_id ++ "-" ++ pad4 (s.seq + 1))) "" =
    "CTX-" ++ take_right 6 s.session_id ++ "-" ++ pad4 (s.seq + 1)
  unfold falsy_or
  exact if_neg (string_append_ne_empty _ _
    (string_append_data_ne _ _ (string_append_data_ne _ _ (by decide))))

/-! ### C10 -/

theorem reg_pop_absent (r : Registry) (k : String) (h : reg_lookup r k = none) :
    reg_pop r k = r := by
  induction r with
  | nil => rfl
  | cons p t ih =>
    have hk : ¬ p.1 = k := by
      intro hc
      rw [show reg_lookup (p :: t) k = if p.1 = k then some p.2 else reg_lookup t k from rfl,
        if_pos hc] at h
      exact Option.noConfusion h
    have ht : reg_lookup t k = none := by
      rw [show reg_lookup (p :: t) k = if p.1 = k then some p.2 else reg_lookup t k from rfl,
        if_neg hk] at h
      exact h
    show List.filter _ (p :: t) = p :: t
    rw [List.filter_cons, if_pos (by simp [hk])]
    rw [show List.filter (fun p => decide ¬p.1 = k) t = reg_pop t k from rfl, ih ht]

/-- C10: `end_session` on a session that is not (or no longer) in the registry
— e.g. a second `end_session` on an already-ended session — does not fail: it
still returns a fresh `session_context` message, consumes two further sequence
numbers, and the registry removal is a no-op leaving the registry (hence every
other registered session) unchanged. -/
theorem C10_end_session_unregistered (reg : Registry) (s : AgentSession)
    (summary msg_ts ended_ts : String)
    (habsent : get_session reg s.session_id = none) :
    (∃ m : Msg, (end_session reg s summary msg_ts ended_ts).2.2 = .ok m) ∧
    (end_session reg s summary msg_ts ended_ts).1 = reg ∧
    (end_session reg s summary msg_ts ended_ts).2.1.seq = s.seq + 2 := by
  refine ⟨⟨_, rfl⟩, ?_, rfl⟩
  show reg_pop reg s.session_id = reg
  exact reg_pop_absent reg s.session_id habsent

/-- A concrete session used by witnesses. -/
def c10_session : AgentSession := AgentSession.init "Test" 1 2025 1 4 "abc123" "2025-01-04T09:00:00Z"

theorem C10_end_session_unregistered_witness :
    (∃ m : Msg, (end_session [] c10_session "done" "T1" "T2").2.2 = .ok m) ∧
    (end_session [] c10_session "done" "T1" "T2").1 = [] ∧
    (end_session [] c10_session "done" "T1" "T2").2.1.seq = c10_session.seq + 2 :=
  C10_end_session_unregistered [] c10_session "done" "T1" "T2" rfl

/-! ### C6 -/

/-- `n` successive `next_seq` calls on a session, returning the final state
and the list of returned values in call order (the serialized semantics of
the lock-protected counter). -/
def next_seq_iter : AgentSession → Nat → AgentSession × List Nat
  | s, 0 => (s, [])
  | s, n + 1 =>
    ((next_seq_iter (next_seq s).1 n).1, (next_seq s).2 :: (next_seq_iter (next_seq s).1 n).2)

theorem next_seq_iter_spec (n : Nat) : ∀ s : AgentSession,
    (next_seq_iter s n).2 = List.range' (s.seq + 1) n := by
  induction n with
  | zero => intro s; rfl
  | succ k ih =>
    intro s
    show (next_seq s).2 :: (next_seq_iter (next_seq s).1 k).2 = List.range' (s.seq + 1) (k + 1)
    rw [List.range'_succ, ih]
    rfl

/-- C6: `next_seq` returns `seq + 1` on every call — hence `1` on the first
call of a freshly constructed session — and `N` successive calls return
exactly `[1, …, N]`: the set `{1, …, N}`, strictly increasing, with no
duplicates or gaps.  (Concurrency is modelled by its serialized semantics —
the Python counter is lock-protected.) -/
theorem C6_next_seq_sequence :
    (∀ s : AgentSession, (next_seq s).2 = s.seq + 1) ∧
    (∀ (name : String) (num : Int) (y mo d : Nat) (suffix ts : String) (n : Nat),
      (next_seq_iter (AgentSession.init name num y mo d suffix ts) n).2 = List.range' 1 n ∧
      (∀ k : Nat, k ∈ (next_seq_iter (AgentSession.init name num y mo d suffix ts) n).2 ↔
        1 ≤ k ∧ k ≤ n)) := by
  refine ⟨fun s => rfl, fun name num y mo d suffix ts n => ⟨next_seq_iter_spec n _, fun k => ?_⟩⟩
  rw [next_seq_iter_spec n _]
  show k ∈ List.range' (0 + 1) n ↔ 1 ≤ k ∧ k ≤ n
  rw [List.mem_range'_1]
  omega

/-! ### C7: keyword normalization -/

theorem char_toNat_inj {a b : Char} (h : a.toNat = b.toNat) : a = b := Char.ext (UInt32.ext h)

theorem char_toNat_ofNat {n : Nat} (h : n < 55296) : (Char.ofNat n).toNat = n := by
  have hv : n.isValidChar := Or.inl h
  simp only [Char.ofNat, hv, dif_pos]
  rfl

theorem is_py_space_lower (c : Char) : is_py_space (py_lower_char c) = is_py_space c := by
  unfold py_lower_char
  by_cases h : 65 ≤ c.toNat ∧ c.toNat ≤ 90
  · rw [if_pos h]
    have h1 : (Char.ofNat (c.toNat + 32)).toNat = c.toNat + 32 := char_toNat_ofNat (by omega)
    unfold is_py_space
    rw [h1]
    apply decide_eq_decide.mpr
    omega
  · rw [if_neg h]

theorem py_lower_char_idem (c : Char) : py_lower_char (py_lower_char c) = py_lower_char c := by
  unfold py_lower_char
  by_cases h : 65 ≤ c.toNat ∧ c.toNat ≤ 90
  · rw [if_pos h]
    have h1 : (Char.ofNat (c.toNat + 32)).toNat = c.toNat + 32 := char_toNat_ofNat (by omega)
    rw [if_neg (by rw [h1]; omega)]
  · rw [if_neg h, if_neg h]

theorem dropWhile_idem (p : Char → Bool) (l : List Char) :
    (l.dropWhile p).dropWhile p = l.dropWhile p := by
  induction l with
  | nil => rfl
  | cons c t ih =>
    rw [List.dropWhile_cons]
    by_cases h : p c
    · rw [if_pos h]; exact ih
    · rw [if_neg h, List.dropWhile_cons, if_neg h]

theorem trim_right_idem (l : List Char) : trim_right (trim_right l) = trim_right l := by
  induction l with
  | nil => rfl
  | cons c t ih =>
    rw [trim_right]
    by_cases h : trim_right t = [] ∧ is_py_space c
    · rw [if_pos h]; rfl
    · rw [if_neg h, trim_right, ih, if_neg h]

theorem dropWhile_map_lower (l : List Char) :
    (l.map py_lower_char).dropWhile is_py_space = (l.dropWhile is_py_space).map py_lower_char := by
  induction l with
  | nil => rfl
  | cons c t ih =>
    rw [List.map_cons, List.dropWhile_cons, List.dropWhile_cons, is_py_space_lower]
    by_cases h : is_py_space c
    · rw [if_pos h, if_pos h]; exact ih
    · rw [if_neg h, if_neg h, List.map_cons]

theorem trim_right_map_lower (l : List Char) :
    trim_right (l.map py_lower_char) = (trim_right l).map py_lower_char := by
  induction l with
  | nil => rfl
  | cons c t ih =>
    rw [List.map_cons, trim_right, trim_right, ih, is_py_space_lower]
    by_cases h : trim_right t = [] ∧ is_py_space c
    · rw [if_pos ⟨by rw [h.1]; rfl, h.2⟩, if_pos h]
      rfl
    · have h2 : ¬((trim_right t).map py_lower_char = [] ∧ is_py_space c) := by
        rintro ⟨h1, hsp⟩
        exact h ⟨List.map_eq_nil_iff.mp h1, hsp⟩
      rw [if_neg h2, if_neg h]
      rfl

theorem py_strip_list_map_lower (l : List Char) :
    py_strip_list (py_lower_list l) = py_lower_list (py_strip_list l) := by
  unfold py_strip_list py_lower_list
  rw [dropWhile_map_lower, trim_right_map_lower]

theorem py_lower_list_idem (l : List Char) :
    py_lower_list (py_lower_list l) = py_lower_list l := by
  unfold py_lower_list
  rw [List.map_map]
  exact List.map_congr_left fun c _ => py_lower_char_idem c

theorem string_eq_iff {s t : String} : s = t ↔ s.data = t.data :=
  ⟨congrArg String.data, String.ext⟩

theorem dropWhile_fix_of_trim_right (x : List Char)
    (hx : x.dropWhile is_py_space = x) :
    (trim_right x).dropWhile is_py_space = trim_right x := by
  cases x with
  | nil => rfl
  | cons c t =>
    have hc : is_py_space c = false := by
      cases hsp : is_py_space c with
      | false => rfl
      | true =>
        exfalso
        rw [List.dropWhile_cons_of_pos hsp] at hx
        have hle := (List.dropWhile_sublist (p := is_py_space) (l := t)).length_le
        have h2 := congrArg List.length hx
        simp only [List.length_cons] at h2
        omega
    rw [trim_right]
    by_cases h : trim_right t = [] ∧ is_py_space c
    · rw [if_pos h]; rfl
    · rw [if_neg h]
      exact List.dropWhile_cons_of_neg (by simp [hc])

theorem py_strip_list_idem (l : List Char) :
    py_strip_list (py_strip_list l) = py_strip_list l := by
  unfold py_strip_list
  rw [dropWhile_fix_of_trim_right (l.dropWhile is_py_space) (dropWhile_idem _ l),
    trim_right_idem]

theorem trim_right_eq_nil_iff (l : List Char) :
    trim_right l = [] ↔ ∀ c ∈ l, is_py_space c := by
  induction l with
  | nil => simp [trim_right]
  | cons c t ih =>
    rw [trim_right]
    by_cases h : trim_right t = [] ∧ is_py_space c
    · rw [if_pos h]
      constructor
      · intro _ x hx
        rcases List.mem_cons.mp hx with hx1 | hx1
        · rw [hx1]; exact h.2
        · exact ih.mp h.1 x hx1
      · intro _
        rfl
    · rw [if_neg h]
      constructor
      · intro hc
        exact absurd hc (List.cons_ne_nil c (trim_right t))
      · intro hall
        exact absurd ⟨ih.mpr fun x hx => hall x (List.mem_cons_of_mem c hx),
          hall c (List.mem_cons_self c t)⟩ h

theorem py_strip_list_eq_nil_iff (l : List Char) :
    py_strip_list l = [] ↔ ∀ c ∈ l, is_py_space c := by
  unfold py_strip_list
  rw [trim_right_eq_nil_iff]
  constructor
  · intro h c hc
    rw [← List.takeWhile_append_dropWhile (p := is_py_space) (l := l)] at hc
    rcases List.mem_append.mp hc with h1 | h1
    · exact List.mem_takeWhile_imp h1
    · exact h c h1
  · intro h c hc
    exact h c ((List.dropWhile_sublist (p := is_py_space) (l := l)).subset hc)

theorem py_strip_lower_eq_empty_iff (k : String) :
    py_strip (py_lower k) = "" ↔ py_strip k = "" := by
  rw [string_eq_iff, string_eq_iff]
  show py_strip_list (py_lower_list k.data) = [] ↔ py_strip_list k.data = []
  rw [py_strip_list_eq_nil_iff, py_strip_list_eq_nil_iff]
  unfold py_lower_list
  constructor
  · intro h c hc
    rw [← is_py_space_lower]
    exact h _ (List.mem_map_of_mem py_lower_char hc)
  · intro h c hc
    obtain ⟨c0, hc0, hceq⟩ := List.mem_map.mp hc
    rw [← hceq, is_py_space_lower]
    exact h c0 hc0

/-- The per-keyword map `k ↦ k.lower().strip()` is idempotent. -/
theorem lower_strip_idem (k : String) :
    py_strip (py_lower (py_strip (py_lower k))) = py_strip (py_lower k) := by
  rw [string_eq_iff]
  show py_strip_list (py_lower_list (py_strip_list (py_lower_list k.data))) =
    py_strip_list (py_lower_list k.data)
  rw [py_strip_list_map_lower, py_strip_list_idem, ← py_strip_list_map_lower, py_lower_list_idem]

theorem mem_of_mem_dedup_first {k : String} : ∀ {seen l : List String},
    k ∈ dedup_first seen l → k ∈ l := by
  intro seen l
  induction l generalizing seen with
  | nil => intro h; exact absurd h (List.not_mem_nil k)
  | cons a t ih =>
    intro h
    rw [dedup_first] at h
    by_cases ha : a ∈ seen
    · rw [if_pos ha] at h
      exact List.mem_cons_of_mem a (ih h)
    · rw [if_neg ha] at h
      rcases List.mem_cons.mp h with h1 | h1
      · rw [h1]; exact List.mem_cons_self a t
      · exact List.mem_cons_of_mem a (ih h1)

theorem dedup_first_idem (l : List String) : ∀ seen : List String,
    dedup_first seen (dedup_first seen l) = dedup_first seen l := by
  induction l with
  | nil => intro seen; rfl
  | cons a t ih =>
    intro seen
    rw [dedup_first]
    by_cases ha : a ∈ seen
    · rw [if_pos ha]; exact ih seen
    · rw [if_neg ha, dedup_first, if_neg ha, ih (a :: seen)]

/-- C7: the keyword normalization used by `make_message` lowercases and trims
each keyword, drops entries that become empty, and deduplicates keeping first
occurrences; it is idempotent; a successful build always carries
`norm_keywords` of the normalized `keywords` argument (so an already-normalized
input is returned unchanged); and
`["Research", "  OKLAHOMA  ", "test", "test"]` normalizes to
`["research", "oklahoma", "test"]`. -/
theorem C7_keyword_normalization :
    (∀ ks : List String, norm_keywords (norm_keywords ks) = norm_keywords ks) ∧
    (∀ (args : BuildArgs) (fid ts : String) (m : Msg), make_message args fid ts = .ok m →
      m.keywords = norm_keywords args.keywords.normalize) ∧
    norm_keywords ["Research", "  OKLAHOMA  ", "test", "test"] =
      ["research", "oklahoma", "test"] := by
  refine ⟨?_, fun args fid ts m h => by rw [make_message_ok h, build_msg_keywords], by decide⟩
  intro ks
  unfold norm_keywords
  have hmem : ∀ k ∈ dedup_first []
      ((ks.filter (fun k => py_strip k ≠ "")).map (fun k => py_strip (py_lower k))),
      ∃ k0, py_strip k0 ≠ "" ∧ k = py_strip (py_lower k0) := by
    intro k hk
    obtain ⟨k0, hk0, hkeq⟩ := List.mem_map.mp (mem_of_mem_dedup_first hk)
    exact ⟨k0, by simpa using (List.mem_filter.mp hk0).2, hkeq.symm⟩
  have hfix : ∀ k ∈ dedup_first []
      ((ks.filter (fun k => py_strip k ≠ "")).map (fun k => py_strip (py_lower k))),
      py_strip k ≠ "" ∧ py_strip (py_lower k) = k := by
    intro k hk
    obtain ⟨k0, hk0, hkeq⟩ := hmem k hk
    constructor
    · rw [hkeq, show py_strip (py_strip (py_lower k0)) = py_strip (py_lower k0) by
        rw [string_eq_iff]
        show py_strip_list (py_strip_list (py_lower_list k0.data)) =
          py_strip_list (py_lower_list k0.data)
        rw [py_strip_list_idem]]
      exact fun hc => hk0 ((py_strip_lower_eq_empty_iff k0).mp hc)
    · rw [hkeq]
      exact lower_strip_idem k0
  rw [List.filter_eq_self.mpr (fun k hk => by
    simpa using (hfix k hk).1)]
  rw [show (dedup_first []
      ((ks.filter (fun k => py_strip k ≠ "")).map (fun k => py_strip (py_lower k)))).map
      (fun k => py_strip (py_lower k)) =
      dedup_first [] ((ks.filter (fun k => py_strip k ≠ "")).map
        (fun k => py_strip (py_lower k))) from
    (List.map_congr_left fun k hk => (hfix k hk).2).trans (List.map_id _)]
  exact dedup_first_idem _ []

/-- A build whose keywords are already normalized. -/
def c7_args : BuildArgs :=
  ⟨"claim", "TestAgent", "Test", none, none, none, none, none, none,
    some ⟨1, 2, by norm_num, by norm_num⟩, .absent, .absent, none, none,
    .list ["research", "oklahoma", "test"], none⟩

theorem C7_keyword_normalization_witness :
    (build_msg c7_args "M1" "T1").keywords =
      norm_keywords (ListArg.normalize (ListArg.list ["research", "oklahoma", "test"])) :=
  C7_keyword_normalization.2.1 c7_args "M1" "T1" _ rfl

/-! ### C2 -/

/-- An `evidence` message violating the unearned-confidence rule *and* the
evidence `refers_to` rule: confidence 0.95, empty provenance, level `safe`,
no `refers_to`. -/
def c2_cex : Msg :=
  ⟨"MSG001", "VLP/1.1", "evidence", "2025-01-04T10:00:00Z", none, none, "Test", none, none,
    "Some evidence", some pt95, [], [], ⟨"safe", []⟩, none, [], none⟩

/-- C2 counterexample: `c2_cex` violates the high-confidence rule
(confidence ≥ 0.9, empty provenance, level ≠ review), and `validate_vlp`
does reject it — but with the evidence `refers_to` error, not the
unearned-confidence error, because the evidence rule is evaluated first.
This refutes the claim's "rejects … with an unearned-confidence error" for
arbitrary violating messages. -/
theorem C2_unearned_confidence_counterexample :
    c2_cex.confidence = some pt95 ∧ pt9 ≤ pt95 ∧ c2_cex.provenance = [] ∧
    c2_cex.safety.level ≠ "review" ∧
    validate_vlp c2_cex = (false, some "evidence messages must include refers_to") ∧
    (validate_vlp c2_cex).2 ≠
      some "confidence >= 0.9 requires provenance or safety.level=review" := by
  refine ⟨rfl, by decide, rfl, by decide, by decide, by decide⟩

/-- C2 (amended): (a) every message accepted by `validate_vlp` with
confidence ≥ 0.9 and empty provenance has `safety.level = "review"`;
(b) `validate_vlp` rejects (ok = false) every message violating the rule,
whoever built it; (c) the reported error is the unearned-confidence error
whenever no earlier-evaluated rule (structural check, lowercase type,
evidence rule, response/correction rule) fails first. -/
theorem C2_unearned_confidence_validator :
    (∀ (m : Msg) (conf : ℚ), (validate_vlp m).1 = true → m.confidence = some conf →
      pt9 ≤ conf → m.provenance = [] → m.safety.level = "review") ∧
    (∀ (m : Msg) (conf : ℚ), m.confidence = some conf → pt9 ≤ conf → m.provenance = [] →
      m.safety.level ≠ "review" → (validate_vlp m).1 = false) ∧
    (∀ (m : Msg) (conf : ℚ), m.confidence = some conf → pt9 ≤ conf → m.provenance = [] →
      m.safety.level ≠ "review" → (structural_validate m).1 = true →
      py_strip m.type = py_lower (py_strip m.type) → py_strip m.type ≠ "evidence" →
      ((py_strip m.type = "response" ∨ py_strip m.type = "correction") →
        opt_str_truthy m.refers_to = true) →
      validate_vlp m =
        (false, some "confidence >= 0.9 requires provenance or safety.level=review")) := by
  have heff : ∀ m : Msg, m.safety.level ≠ "review" → effective_level m.safety ≠ "review" := by
    intro m h
    unfold effective_level
    by_cases h0 : m.safety.level = ""
    · rw [if_pos h0]; decide
    · rw [if_neg h0]; exact h
  refine ⟨?_, ?_, ?_⟩
  · intro m conf hok hconf hge hprov
    unfold validate_vlp at hok
    split at hok
    · rename_i hsf
      rw [hok] at hsf
      exact Bool.noConfusion hsf
    · unfold _semantic_validate at hok
      split at hok
      · simp at hok
      · split at hok
        · simp at hok
        · split at hok
          · simp at hok
          · split at hok
            · simp at hok
            · split at hok
              · simp at hok
              · split at hok
                · simp at hok
                · rename_i hnot
                  by_contra hlvl
                  exact hnot ⟨by rw [hconf]; exact hge, hprov, heff m hlvl⟩
  · intro m conf hconf hge hprov hlvl
    unfold validate_vlp
    by_cases hs : (structural_validate m).1 = false
    · rw [if_pos hs]; exact hs
    · rw [if_neg hs]
      unfold _semantic_validate
      split
      · rfl
      · split
        · rfl
        · split
          · rfl
          · split
            · rfl
            · split
              · rfl
              · split
                · rfl
                · rename_i hnot
                  exact absurd ⟨by rw [hconf]; exact hge, hprov, heff m hlvl⟩ hnot
  · intro m conf hconf hge hprov hlvl hst hlc hnev hrc
    unfold validate_vlp
    rw [if_neg (by rw [hst]; decide)]
    unfold _semantic_validate
    rw [if_neg (by rw [← hlc]; exact fun h => h rfl)]
    rw [if_neg (by rw [hconf]; simp)]
    rw [if_neg (by rintro ⟨h1, -⟩; exact hnev h1)]
    rw [if_neg (by rintro ⟨h1, -⟩; exact hnev h1)]
    rw [if_neg (by rintro ⟨h1, h2⟩; rw [hrc h1] at h2; exact Bool.noConfusion h2)]
    rw [if_pos ⟨by rw [hconf]; exact hge, hprov, heff m hlvl⟩]

/-- A claim-typed message violating the rule, used to witness parts (b) and
(c): confidence 0.95, empty provenance, level `safe`. -/
def c2_claim_cex : Msg :=
  ⟨"MSG002", "VLP/1.1", "claim", "2025-01-04T10:00:00Z", none, none, "Test", none, none,
    "Bold claim", some pt95, [], [], ⟨"safe", []⟩, none, [], none⟩

/-- An accepted high-confidence message with empty provenance, used to
witness part (a): its level is `review`. -/
def c2_ok_msg : Msg :=
  ⟨"MSG003", "VLP/1.1", "claim", "2025-01-04T10:00:00Z", none, none, "Test", none, none,
    "Escalated claim", some pt95, [], [], ⟨"review", [escalation_issue]⟩, none, [], none⟩

theorem C2_unearned_confidence_validator_witness :
    c2_ok_msg.safety.level = "review" ∧
    (validate_vlp c2_claim_cex).1 = false ∧
    validate_vlp c2_claim_cex =
      (false, some "confidence >= 0.9 requires provenance or safety.level=review") :=
  ⟨C2_unearned_confidence_validator.1 c2_ok_msg pt95 (by decide) rfl (by decide) rfl,
   C2_unearned_confidence_validator.2.1 c2_claim_cex pt95 rfl (by decide) rfl (by decide),
   C2_unearned_confidence_validator.2.2 c2_claim_cex pt95 rfl (by decide) rfl (by decide)
     (by decide) (by decide) (by decide) (by decide)⟩

/-! ### C5 -/

/-- Strip `pat` from the front of `l`, if present (used only to state the
spec's slug rule for comparison). -/
def strip_leading (pat l : List Char) : List Char :=
  if starts_with pat l then l.drop pat.length else l

/-- The slug as the spec (§4.3) and claim C5 describe it: lowercased, only a
*leading* `"the "` stripped, spaces to hyphens, truncated to 12 characters.
Stated from the spec's words, for comparison with the code's slug. -/
def spec_slug (agent_name : String) : String :=
  take_n 12 (py_replace ⟨strip_leading "the ".data (py_lower agent_name).data⟩ " " "-")

/-- The slug as the code computes it (sessions.py line 46): *every*
occurrence of `"the "` removed. -/
def code_slug (agent_name : String) : String :=
  take_n 12 (py_replace (py_replace (py_lower agent_name) "the " "") " " "-")

/-- Python `s.split("-")`. -/
def split_dash : List Char → List (List Char)
  | [] => [[]]
  | c :: t =>
    if c = '-' then [] :: split_dash t
    else
      match split_dash t with
      | [] => [[c]]
      | l :: ls => (c :: l) :: ls

/-- C5, evaluated at the failing input: `start_session("The Observer", 4)` on
2025-01-04 with uuid suffix `abc123` produces
`"S-2025-01-04-observer-abc123"`.  The date segment is the 10-character
dashed `%Y-%m-%d` form, not an 8-character date, so the id has six
dash-separated parts — the repository's own test
(`test_session_id_format`) asserts exactly four, consistent with the
claim's `S-<8-char-date>-observer-<6-hex>` pattern.  Moreover the slug
drops *every* occurrence of `"the "`, not just a leading one:
`"watch the stars"` slugs to `"watch-stars"` where the claim's description
(leading `"the "` stripped, spaces to hyphens, truncated to 12) would give
`"watch-the-st"`. -/
theorem C5_session_id_code_bug :
    (start_session [] "The Observer" 4 2025 1 4 "abc123" "T0").2.session_id =
      "S-2025-01-04-observer-abc123" ∧
    (strf_date 2025 1 4).data.length = 10 ∧
    (split_dash ("S-2025-01-04-observer-abc123").data).length = 6 ∧
    ¬ (split_dash ("S-2025-01-04-observer-abc123").data).length = 4 ∧
    _generate_session_id "watch the stars" 2025 1 4 "abc123" =
      "S-2025-01-04-watch-stars-abc123" ∧
    code_slug "watch the stars" = "watch-stars" ∧
    spec_slug "watch the stars" = "watch-the-st" ∧
    code_slug "watch the stars" ≠ spec_slug "watch the stars" := by
  refine ⟨by decide, by decide, by decide, by decide, by decide, by decide, by decide, by decide⟩

/-! ### C8: NDJSON framing (`to_ndjson` / `from_ndjson`, runtime.py 177–189)

Messages are serialized with `json.dumps(m, ensure_ascii=False)` and parsed
with `json.loads`, both from the Python standard library.  The JSON value
universe is modelled by `Json` (numbers restricted to integers — no claim
exercises float rendering); `render` embeds `json.dumps` with its default
separators and `ensure_ascii=False` escaping rules, and `parse_val`/`jloads`
embeds `json.loadsale` for that universe. -/

/-- A JSON value (numbers restricted to integers). -/
inductive Json where
  | null
  | jbool (b : Bool)
  | jint (n : Int)
  | jstr (s : String)
  | arr (elems : List Json)
  | obj (fields : List (String × Json))

mutual

/-- A size measure used for induction over `Json`. -/
def jsize : Json → Nat
  | .null => 1
  | .jbool _ => 1
  | .jint _ => 1
  | .jstr _ => 1
  | .arr l => 1 + jsize_list l
  | .obj l => 1 + jsize_fields l

def jsize_list : List Json → Nat
  | [] => 0
  | v :: t => jsize v + jsize_list t

def jsize_fields : List (String × Json) → Nat
  | [] => 0
  | (_, v) :: t => jsize v + jsize_fields t

end

/-- Lower-case hex digit, as Python's `\uXXXX` escapes emit. -/
def hex_digit (n : Nat) : Char :=
  if n < 10 then Char.ofNat (48 + n) else Char.ofNat (87 + n)

/-- `json.dumps(…, ensure_ascii=False)` escaping of one string character:
`"` and `\` are backslash-escaped, the named control escapes are used for
\n \r \t \b \f, all other characters below 0x20 become `\u00XX`, and
everything else — including U+0085/U+2028/U+2029 — is emitted literally. -/
def esc_char (c : Char) : List Char :=
  if c = '"' then ['\\', '"']
  else if c = '\\' then ['\\', '\\']
  else if c = '\n' then ['\\', 'n']
  else if c = '\r' then ['\\', 'r']
  else if c = '\t' then ['\\', 't']
  else if c = '\x08' then ['\\', 'b']
  else if c = '\x0c' then ['\\', 'f']
  else if c.toNat < 32 then
    ['\\', 'u', '0', '0', hex_digit (c.toNat / 16), hex_digit (c.toNat % 16)]
  else [c]

def esc_list : List Char → List Char
  | [] => []
  | c :: t => esc_char c ++ esc_list t

/-- JSON string literal rendering. -/
def render_str (s : String) : List Char := '"' :: esc_list s.data ++ ['"']

/-- Decimal digit characters of `n` (Python `str(n)`). -/
def nat_chars (n : Nat) : List Char :=
  if n = 0 then ['0'] else (nat_digits_rev n n).reverse

/-- JSON integer rendering, as Python `str(int)`. -/
def render_int (i : Int) : List Char :=
  if i < 0 then '-' :: nat_chars i.natAbs else nat_chars i.natAbs

mutual

/-- `json.dumps(v, ensure_ascii=False)` with the default separators
`", "` and `": "`. -/
def render : Json → List Char
  | .null => ['n', 'u', 'l', 'l']
  | .jbool true => ['t', 'r', 'u', 'e']
  | .jbool false => ['f', 'a', 'l', 's', 'e']
  | .jint n => render_int n
  | .jstr s => render_str s
  | .arr l => '[' :: (render_elems l ++ [']'])
  | .obj l => '\x7b' :: (render_fields l ++ ['\x7d'])

def render_elems : List Json → List Char
  | [] => []
  | [v] => render v
  | v :: vs => render v ++ ',' :: ' ' :: render_elems vs

def render_fields : List (String × Json) → List Char
  | [] => []
  | [(k, v)] => render_str k ++ ':' :: ' ' :: render v
  | (k, v) :: fs => render_str k ++ ':' :: ' ' :: render v ++ ',' :: ' ' :: render_fields fs

end

/-- JSON insignificant whitespace. -/
def json_ws (c : Char) : Bool := c = ' ' ∨ c = '\t' ∨ c = '\n' ∨ c = '\r'

def skip_ws : List Char → List Char
  | [] => []
  | c :: t => if json_ws c then skip_ws t else c :: t

def hex_val (c : Char) : Option Nat :=
  if 48 ≤ c.toNat ∧ c.toNat ≤ 57 then some (c.toNat - 48)
  else if 97 ≤ c.toNat ∧ c.toNat ≤ 102 then some (c.toNat - 87)
  else if 65 ≤ c.toNat ∧ c.toNat ≤ 70 then some (c.toNat - 55)
  else none

def unesc_char (c : Char) : Option Char :=
  if c = '"' then some '"'
  else if c = '\\' then some '\\'
  else if c = '/' then some '/'
  else if c = 'n' then some '\n'
  else if c = 't' then some '\t'
  else if c = 'r' then some '\r'
  else if c = 'b' then some '\x08'
  else if c = 'f' then some '\x0c'
  else none

/-- Parse the body of a JSON string literal (after the opening quote),
returning the decoded characters and the input after the closing quote. -/
def parse_str_body : List Char → Option (List Char × List Char)
  | [] => none
  | c :: t =>
    if c = '"' then some ([], t)
    else if c = '\\' then
      match t with
      | [] => none
      | e :: t2 =>
        if e = 'u' then
          match t2 with
          | h1 :: h2 :: h3 :: h4 :: t3 =>
            match hex_val h1, hex_val h2, hex_val h3, hex_val h4, parse_str_body t3 with
            | some a, some b, some c2, some d, some sr =>
              some (Char.ofNat (((a * 16 + b) * 16 + c2) * 16 + d) :: sr.1, sr.2)
            | _, _, _, _, _ => none
          | _ => none
        else
          match unesc_char e, parse_str_body t2 with
          | some d, some sr => some (d :: sr.1, sr.2)
          | _, _ => none
    else
      match parse_str_body t with
      | some sr => some (c :: sr.1, sr.2)
      | none => none

def is_digit_char (c : Char) : Bool := 48 ≤ c.toNat ∧ c.toNat ≤ 57

/-- Maximal-munch decimal number parsing. -/
def parse_nat_loop : Nat → List Char → Nat × List Char
  | acc, [] => (acc, [])
  | acc, c :: t =>
    if is_digit_char c then parse_nat_loop (acc * 10 + (c.toNat - 48)) t else (acc, c :: t)

/-- Parse the comma-separated elements of a non-empty JSON array, up to and
including the closing bracket.  `pv` parses one value; the fuel bounds the
number of elements (each consumes at least one input character). -/
def elems_loop (pv : List Char → Option (Json × List Char)) :
    Nat → List Char → Option (List Json × List Char)
  | 0, _ => none
  | g + 1, cs =>
    match pv cs with
    | none => none
    | some (v, r) =>
      match skip_ws r with
      | [] => none
      | c :: r2 =>
        if c = ']' then some ([v], r2)
        else if c = ',' then
          match elems_loop pv g r2 with
          | some (vs, r3) => some (v :: vs, r3)
          | none => none
        else none

/-- Parse the members of a non-empty JSON object, up to and including the
closing brace. -/
def fields_loop (pv : List Char → Option (Json × List Char)) :
    Nat → List Char → Option (List (String × Json) × List Char)
  | 0, _ => none
  | g + 1, cs =>
    match skip_ws cs with
    | [] => none
    | c :: t =>
      if c = '"' then
        match parse_str_body t with
        | none => none
        | some (k, r) =>
          match skip_ws r with
          | [] => none
          | c2 :: r2 =>
            if c2 = ':' then
              match pv r2 with
              | none => none
              | some (v, r3) =>
                match skip_ws r3 with
                | [] => none
                | c3 :: r4 =>
                  if c3 = '\x7d' then some ([(⟨k⟩, v)], r4)
                  else if c3 = ',' then
                    match fields_loop pv g r4 with
                    | some (fs, r5) => some ((⟨k⟩, v) :: fs, r5)
                    | none => none
                  else none
            else none
      else none

/-- One step of the recursive-descent JSON value parser, after leading
whitespace has been skipped; `pv` parses nested values. -/
def parse_val_core (pv : List Char → Option (Json × List Char)) :
    List Char → Option (Json × List Char)
  | [] => none
  | c :: t =>
    if c = 'n' then
      match t with
      | 'u' :: 'l' :: 'l' :: r => some (.null, r)
      | _ => none
    else if c = 't' then
      match t with
      | 'r' :: 'u' :: 'e' :: r => some (.jbool true, r)
      | _ => none
    else if c = 'f' then
      match t with
      | 'a' :: 'l' :: 's' :: 'e' :: r => some (.jbool false, r)
      | _ => none
    else if c = '"' then
      match parse_str_body t with
      | some sr => some (.jstr ⟨sr.1⟩, sr.2)
      | none => none
    else if c = '-' then
      match t with
      | [] => none
      | d :: t2 =>
        if is_digit_char d then
          some (.jint (-((parse_nat_loop (d.toNat - 48) t2).1 : Int)),
            (parse_nat_loop (d.toNat - 48) t2).2)
        else none
    else if is_digit_char c then
      some (.jint ((parse_nat_loop (c.toNat - 48) t).1 : Int), (parse_nat_loop (c.toNat - 48) t).2)
    else if c = '[' then
      match skip_ws t with
      | [] => none
      | c2 :: t2 =>
        if c2 = ']' then some (.arr [], t2)
        else
          match elems_loop pv (t2.length + 1) (c2 :: t2) with
          | some (vs, r) => some (.arr vs, r)
          | none => none
    else if c = '\x7b' then
      match skip_ws t with
      | [] => none
      | c2 :: t2 =>
        if c2 = '\x7d' then some (.obj [], t2)
        else
          match fields_loop pv (t2.length + 1) (c2 :: t2) with
          | some (fs, r) => some (.obj fs, r)
          | none => none
    else none

/-- Recursive-descent JSON value parser (the fragment of `json.loads` for the
`Json` universe).  The fuel bounds nesting depth. -/
def parse_val : Nat → List Char → Option (Json × List Char)
  | 0, _ => none
  | f + 1, input => parse_val_core (parse_val f) (skip_ws input)

/-- `json.loads` on one line: parse one value, allow trailing whitespace
only; `none` models the raised `JSONDecodeError`. -/
def jloads_chars (cs : List Char) : Option Json :=
  match parse_val (cs.length + 1) cs with
  | some (v, r) => if skip_ws r = [] then some v else none
  | none => none

/-- `"\n".join(json.dumps(m, ensure_ascii=False) for m in messages)`. -/
def intercalate_nl : List (List Char) → List Char
  | [] => []
  | [l] => l
  | l :: ls => l ++ '\n' :: intercalate_nl ls

/-- `to_ndjson` (runtime.py lines 177–179). -/
def to_ndjson (messages : List Json) : String :=
  ⟨intercalate_nl (messages.map (fun m => render m))⟩

/-- The line-boundary characters of Python `str.splitlines`:
\n, \r, \v, \f, FS, GS, RS, NEL (U+0085), LS (U+2028), PS (U+2029);
\r\n counts as a single boundary. -/
def is_line_boundary (c : Char) : Bool :=
  c.toNat = 10 ∨ c.toNat = 13 ∨ c.toNat = 11 ∨ c.toNat = 12 ∨ c.toNat = 28 ∨
    c.toNat = 29 ∨ c.toNat = 30 ∨ c.toNat = 133 ∨ c.toNat = 8232 ∨ c.toNat = 8233

def splitlines_go : List Char → List Char → List (List Char)
  | [], acc => if acc = [] then [] else [acc.reverse]
  | [c], acc =>
    if is_line_boundary c then [acc.reverse]
    else [(c :: acc).reverse]
  | c :: c2 :: t, acc =>
    if c.toNat = 13 ∧ c2.toNat = 10 then acc.reverse :: splitlines_go t []
    else if is_line_boundary c then acc.reverse :: splitlines_go (c2 :: t) []
    else splitlines_go (c2 :: t) (c :: acc)

/-- Python `str.splitlines()`. -/
def py_splitlines (cs : List Char) : List (List Char) := splitlines_go cs []

/-- The loop of `from_ndjson` (runtime.py lines 182–189): skip blank lines,
`json.loads` every other line in order, propagating a parse failure. -/
def from_ndjson_lines : List (List Char) → Option (List Json)
  | [] => some []
  | l :: ls =>
    if py_strip_list l = [] then from_ndjson_lines ls
    else
      match jloads_chars l, from_ndjson_lines ls with
      | some m, some ms => some (m :: ms)
      | _, _ => none

/-- `from_ndjson` (runtime.py lines 182–189). -/
def from_ndjson (text : String) : Option (List Json) :=
  from_ndjson_lines (py_splitlines text.data)

/-- No character of the string is one of the three line-boundary characters
that `json.dumps(…, ensure_ascii=False)` leaves unescaped (U+0085, U+2028,
U+2029). -/
def str_clean (s : String) : Bool :=
  s.data.all (fun c => c.toNat ≠ 133 ∧ c.toNat ≠ 8232 ∧ c.toNat ≠ 8233)

mutual

/-- Every string in the JSON value (keys and string values) is `str_clean`. -/
def jclean : Json → Bool
  | .null => true
  | .jbool _ => true
  | .jint _ => true
  | .jstr s => str_clean s
  | .arr l => jclean_list l
  | .obj l => jclean_fields l

def jclean_list : List Json → Bool
  | [] => true
  | v :: t => jclean v && jclean_list t

def jclean_fields : List (String × Json) → Bool
  | [] => true
  | (k, v) :: t => str_clean k && jclean v && jclean_fields t

end

/-- The next input character (if any) is not a decimal digit, so
maximal-munch number parsing stops exactly at the rendered digits. -/
def head_not_digit : List Char → Prop
  | [] => True
  | c :: _ => is_digit_char c = false

theorem digit_char_toNat {d : Nat} (h : d < 10) :
    (Char.ofNat (48 + d)).toNat = 48 + d := char_toNat_ofNat (by omega)

theorem nat_digits_rev_mem : ∀ f n c, c ∈ nat_digits_rev f n →
    ∃ d, d < 10 ∧ c = Char.ofNat (48 + d) := by
  intro f
  induction f with
  | zero => intro n c h; exact absurd h (List.not_mem_nil c)
  | succ g ih =>
    intro n c h
    rw [nat_digits_rev] at h
    by_cases hn : n = 0
    · rw [if_pos hn] at h; exact absurd h (List.not_mem_nil c)
    · rw [if_neg hn] at h
      rcases List.mem_cons.mp h with h1 | h1
      · exact ⟨n % 10, Nat.mod_lt n (by omega), h1⟩
      · exact ih (n / 10) c h1

theorem is_digit_digit_char {d : Nat} (h : d < 10) :
    is_digit_char (Char.ofNat (48 + d)) = true := by
  unfold is_digit_char
  rw [digit_char_toNat h]
  exact decide_eq_true (by omega)

theorem nat_chars_digits (n : Nat) : ∀ c ∈ nat_chars n, ∃ d, d < 10 ∧ c = Char.ofNat (48 + d) := by
  unfold nat_chars
  by_cases h : n = 0
  · rw [if_pos h]
    intro c hc
    rw [List.mem_singleton.mp hc]
    exact ⟨0, by omega, rfl⟩
  · rw [if_neg h]
    intro c hc
    exact nat_digits_rev_mem n n c (List.mem_reverse.mp hc)

theorem nat_chars_ne_nil (n : Nat) : nat_chars n ≠ [] := by
  unfold nat_chars
  by_cases h : n = 0
  · rw [if_pos h]; exact List.cons_ne_nil _ _
  · rw [if_neg h]
    intro hc
    rw [List.reverse_eq_nil_iff] at hc
    cases n with
    | zero => exact h rfl
    | succ m =>
      rw [nat_digits_rev, if_neg h] at hc
      exact List.cons_ne_nil _ _ hc

theorem parse_nat_loop_append (ds : List Char) (hds : ∀ c ∈ ds, is_digit_char c = true) :
    ∀ (acc : Nat) (rest : List Char), head_not_digit rest →
      parse_nat_loop acc (ds ++ rest) =
        (ds.foldl (fun a c => a * 10 + (c.toNat - 48)) acc, rest) := by
  induction ds with
  | nil =>
    intro acc rest hrest
    cases rest with
    | nil => rfl
    | cons c t =>
      show parse_nat_loop acc (c :: t) = (acc, c :: t)
      unfold parse_nat_loop
      rw [if_neg (by rw [show is_digit_char c = false from hrest]; simp)]
  | cons d ds ih =>
    intro acc rest hrest
    show parse_nat_loop acc (d :: (ds ++ rest)) = _
    unfold parse_nat_loop
    rw [if_pos (hds d (List.mem_cons_self d ds))]
    rw [ih (fun c hc => hds c (List.mem_cons_of_mem d hc)) _ rest hrest]
    rfl

theorem nat_digits_rev_foldl : ∀ f n, n ≤ f → n ≠ 0 → ∀ acc : Nat,
    (nat_digits_rev f n).reverse.foldl (fun a c => a * 10 + (c.toNat - 48)) acc =
      acc * 10 ^ (nat_digits_rev f n).length + n := by
  intro f
  induction f with
  | zero => intro n h1 h2 acc; exact absurd (Nat.le_zero.mp h1) h2
  | succ g ih =>
    intro n h1 h2 acc
    rw [nat_digits_rev, if_neg h2, List.reverse_cons, List.foldl_append]
    by_cases h10 : n / 10 = 0
    · have hnil : nat_digits_rev g (n / 10) = [] := by
        cases g with
        | zero => rfl
        | succ g2 => rw [nat_digits_rev, if_pos h10]
      rw [hnil]
      show List.foldl _ acc [Char.ofNat (48 + n % 10)] = _
      rw [List.foldl_cons, List.foldl_nil, digit_char_toNat (Nat.mod_lt n (by omega))]
      have hlen : ([Char.ofNat (48 + n % 10)] : List Char).length = 1 := rfl
      simp only [List.length_cons, List.length_nil]
      have hmod : n % 10 = n := Nat.mod_eq_of_lt (by omega)
      omega
    · have hle : n / 10 ≤ g := by omega
      rw [ih (n / 10) hle h10 acc, List.foldl_cons, List.foldl_nil,
        digit_char_toNat (Nat.mod_lt n (by omega)), List.length_cons, pow_succ,
        Nat.add_sub_cancel_left, Nat.add_mul, ← Nat.mul_assoc]
      set Q := acc * 10 ^ (nat_digits_rev g (n / 10)).length with hQ
      omega

theorem parse_nat_chars (n : Nat) (rest : List Char) (hrest : head_not_digit rest) :
    ∃ c t, nat_chars n ++ rest = c :: t ∧ is_digit_char c = true ∧
      parse_nat_loop (c.toNat - 48) t = (n, rest) := by
  obtain ⟨c, t', he⟩ := List.exists_cons_of_ne_nil (nat_chars_ne_nil n)
  have hdigs : ∀ x ∈ nat_chars n, is_digit_char x = true := by
    intro x hx
    obtain ⟨d, hd, hxe⟩ := nat_chars_digits n x hx
    rw [hxe]
    exact is_digit_digit_char hd
  have hfold : (nat_chars n).foldl (fun a c => a * 10 + (c.toNat - 48)) 0 = n := by
    unfold nat_chars
    by_cases h : n = 0
    · rw [if_pos h, List.foldl_cons, List.foldl_nil, h]
      rfl
    · rw [if_neg h, nat_digits_rev_foldl n n le_rfl h 0]
      simp
  refine ⟨c, t' ++ rest, by rw [he, List.cons_append], hdigs c (he ▸ List.mem_cons_self c t'), ?_⟩
  have ht' : ∀ x ∈ t', is_digit_char x = true := fun x hx =>
    hdigs x (he ▸ List.mem_cons_of_mem c hx)
  rw [parse_nat_loop_append t' ht' _ rest hrest]
  rw [he, List.foldl_cons] at hfold
  simpa using hfold

theorem skip_ws_cons_not {c : Char} (t : List Char) (h : json_ws c = false) :
    skip_ws (c :: t) = c :: t := by
  unfold skip_ws
  rw [if_neg (by rw [h]; simp)]

theorem skip_ws_space (cs : List Char) : skip_ws (' ' :: cs) = skip_ws cs := by
  rw [skip_ws.eq_def]
  simp [json_ws]

theorem hex_digit_val {d : Nat} (h : d < 16) : hex_val (hex_digit d) = some d := by
  interval_cases d <;> decide

theorem parse_str_body_esc (s : List Char) : ∀ rest : List Char,
    parse_str_body (esc_list s ++ '"' :: rest) = some (s, rest) := by
  induction s with
  | nil =>
    intro rest
    rw [show esc_list [] ++ '"' :: rest = '"' :: rest from rfl, parse_str_body.eq_def]
    simp
  | cons c s ih =>
    intro rest
    have hsplit : esc_list (c :: s) ++ '"' :: rest = esc_char c ++ (esc_list s ++ '"' :: rest) := by
      show (esc_char c ++ esc_list s) ++ '"' :: rest = _
      rw [List.append_assoc]
    rw [hsplit]
    unfold esc_char
    by_cases h1 : c = '"'
    · rw [if_pos h1, h1]
      show parse_str_body ('\\' :: '"' :: (esc_list s ++ '"' :: rest)) = _
      rw [parse_str_body.eq_def]
      simp [unesc_char, ih]
    · rw [if_neg h1]
      by_cases h2 : c = '\\'
      · rw [if_pos h2, h2]
        show parse_str_body ('\\' :: '\\' :: (esc_list s ++ '"' :: rest)) = _
        rw [parse_str_body.eq_def]
        simp [unesc_char, ih]
      · rw [if_neg h2]
        by_cases h3 : c = '\n'
        · rw [if_pos h3, h3]
          show parse_str_body ('\\' :: 'n' :: (esc_list s ++ '"' :: rest)) = _
          rw [parse_str_body.eq_def]
          simp [unesc_char, ih]
        · rw [if_neg h3]
          by_cases h4 : c = '\r'
          · rw [if_pos h4, h4]
            show parse_str_body ('\\' :: 'r' :: (esc_list s ++ '"' :: rest)) = _
            rw [parse_str_body.eq_def]
            simp [unesc_char, ih]
          · rw [if_neg h4]
            by_cases h5 : c = '\t'
            · rw [if_pos h5, h5]
              show parse_str_body ('\\' :: 't' :: (esc_list s ++ '"' :: rest)) = _
              rw [parse_str_body.eq_def]
              simp [unesc_char, ih]
            · rw [if_neg h5]
              by_cases h6 : c = '\x08'
              · rw [if_pos h6, h6]
                show parse_str_body ('\\' :: 'b' :: (esc_list s ++ '"' :: rest)) = _
                rw [parse_str_body.eq_def]
                simp [unesc_char, ih]
              · rw [if_neg h6]
                by_cases h7 : c = '\x0c'
                · rw [if_pos h7, h7]
                  show parse_str_body ('\\' :: 'f' :: (esc_list s ++ '"' :: rest)) = _
                  rw [parse_str_body.eq_def]
                  simp [unesc_char, ih]
                · rw [if_neg h7]
                  by_cases h8 : c.toNat < 32
                  · rw [if_pos h8]
                    show parse_str_body
                      ('\\' :: 'u' :: '0' :: '0' :: hex_digit (c.toNat / 16) ::
                        hex_digit (c.toNat % 16) :: (esc_list s ++ '"' :: rest)) = _
                    have hv1 : hex_val (hex_digit (c.toNat / 16)) = some (c.toNat / 16) :=
                      hex_digit_val (by omega)
                    have hv2 : hex_val (hex_digit (c.toNat % 16)) = some (c.toNat % 16) :=
                      hex_digit_val (Nat.mod_lt _ (by omega))
                    have h00 : hex_val '0' = some 0 := by decide
                    have hchar : Char.ofNat (c.toNat / 16 * 16 + c.toNat % 16) = c := by
                      have harith : c.toNat / 16 * 16 + c.toNat % 16 = c.toNat := by
                        have := Nat.div_add_mod c.toNat 16
                        omega
                      rw [harith]
                      exact char_toNat_inj (char_toNat_ofNat (by omega))
                    rw [parse_str_body.eq_def]
                    simp [h00, hv1, hv2, ih, hchar]
                  · rw [if_neg h8]
                    show parse_str_body (c :: (esc_list s ++ '"' :: rest)) = _
                    rw [parse_str_body.eq_def]
                    simp [h1, h2, ih]

/-- The characters with which the rendering of any JSON value can begin. -/
def good_head (c : Char) : Bool :=
  c = 'n' ∨ c = 't' ∨ c = 'f' ∨ c = '"' ∨ c = '-' ∨ is_digit_char c = true ∨
    c = '[' ∨ c = '\x7b'

theorem render_head (v : Json) : ∃ c t, render v = c :: t ∧ good_head c = true := by
  cases v with
  | null => exact ⟨'n', _, rfl, by decide⟩
  | jbool b => cases b
                 <;> [exact ⟨'f', _, rfl, by decide⟩; exact ⟨'t', _, rfl, by decide⟩]
  | jint n =>
    show ∃ c t, render_int n = c :: t ∧ _
    unfold render_int
    by_cases hn : n < 0
    · rw [if_pos hn]
      exact ⟨'-', _, rfl, by decide⟩
    · rw [if_neg hn]
      obtain ⟨c, t', he⟩ := List.exists_cons_of_ne_nil (nat_chars_ne_nil n.natAbs)
      obtain ⟨d, hd, hc⟩ := nat_chars_digits n.natAbs c (he ▸ List.mem_cons_self c t')
      refine ⟨c, t', he, ?_⟩
      apply decide_eq_true
      have : is_digit_char c = true := hc ▸ is_digit_digit_char hd
      tauto
  | jstr s => exact ⟨'"', _, rfl, by decide⟩
  | arr l => exact ⟨'[', _, rfl, by decide⟩
  | obj l => exact ⟨'\x7b', _, rfl, by decide⟩

theorem good_head_facts {c : Char} (h : good_head c = true) :
    json_ws c = false ∧ is_py_space c = false ∧ c ≠ ']' ∧ c ≠ '\x7d' ∧
      is_line_boundary c = false := by
  have hp := of_decide_eq_true h
  rcases hp with h1 | h1 | h1 | h1 | h1 | h1 | h1 | h1
  case _ => subst h1; exact ⟨by decide, by decide, by decide, by decide, by decide⟩
  case _ => subst h1; exact ⟨by decide, by decide, by decide, by decide, by decide⟩
  case _ => subst h1; exact ⟨by decide, by decide, by decide, by decide, by decide⟩
  case _ => subst h1; exact ⟨by decide, by decide, by decide, by decide, by decide⟩
  case _ => subst h1; exact ⟨by decide, by decide, by decide, by decide, by decide⟩
  case _ =>
    have hd := of_decide_eq_true h1
    refine ⟨?_, ?_, ?_, ?_, ?_⟩
    · apply decide_eq_false
      rintro (he | he | he | he) <;>
        · have hta := congrArg Char.toNat he
          simp at hta
          omega
    · apply decide_eq_false
      intro hcon
      omega
    · intro he
      rw [he] at h1
      exact absurd h1 (by decide)
    · intro he
      rw [he] at h1
      exact absurd h1 (by decide)
    · apply decide_eq_false
      intro hcon
      omega
  case _ => subst h1; exact ⟨by decide, by decide, by decide, by decide, by decide⟩
  case _ => subst h1; exact ⟨by decide, by decide, by decide, by decide, by decide⟩

theorem render_ne_nil (v : Json) : render v ≠ [] := by
  obtain ⟨c, t, he, -⟩ := render_head v
  rw [he]
  exact List.cons_ne_nil c t

theorem jsize_pos (v : Json) : 1 ≤ jsize v := by
  cases v <;> rw [jsize] <;> omega

theorem jsize_list_mem {l : List Json} {v : Json} (h : v ∈ l) : jsize v ≤ jsize_list l := by
  induction l with
  | nil => exact absurd h (List.not_mem_nil v)
  | cons a t ih =>
    rw [jsize_list]
    rcases List.mem_cons.mp h with h1 | h1
    · rw [h1]; omega
    · have := ih h1; omega

theorem jsize_fields_mem {l : List (String × Json)} {k : String} {v : Json}
    (h : (k, v) ∈ l) : jsize v ≤ jsize_fields l := by
  induction l with
  | nil => exact absurd h (List.not_mem_nil (k, v))
  | cons a t ih =>
    obtain ⟨a1, a2⟩ := a
    rw [jsize_fields]
    rcases List.mem_cons.mp h with h1 | h1
    · rw [show v = a2 from (Prod.mk.injEq _ _ _ _ ▸ h1).2]; omega
    · have := ih h1; omega

theorem length_le_render_elems (l : List Json) : l.length ≤ (render_elems l).length := by
  induction l with
  | nil => simp [render_elems]
  | cons v vs ih =>
    cases vs with
    | nil =>
      rw [render_elems]
      have := render_ne_nil v
      have := List.length_pos.mpr this
      simp
      omega
    | cons w vs' =>
      show _ ≤ (render v ++ ',' :: ' ' :: render_elems (w :: vs')).length
      have h1 := render_ne_nil v
      have h2 := List.length_pos.mpr h1
      simp only [List.length_append, List.length_cons]
      have := ih
      simp only [List.length_cons] at this ⊢
      omega

theorem length_le_render_fields (l : List (String × Json)) :
    l.length ≤ (render_fields l).length := by
  induction l with
  | nil => simp [render_fields]
  | cons a fs ih =>
    obtain ⟨k, v⟩ := a
    cases fs with
    | nil =>
      show _ ≤ (render_str k ++ ':' :: ' ' :: render v).length
      simp [render_str]
    | cons b fs' =>
      obtain ⟨k1, v1⟩ := b
      show _ ≤
        (render_str k ++ ':' :: ' ' :: render v ++ ',' :: ' ' ::
          render_fields ((k1, v1) :: fs')).length
      simp only [List.length_cons, List.length_append, render_str] at ih ⊢
      omega

theorem jsize_list_le_render_elems (l : List Json)
    (H : ∀ v ∈ l, jsize v ≤ (render v).length) :
    jsize_list l ≤ (render_elems l).length := by
  induction l with
  | nil => simp [jsize_list, render_elems]
  | cons v vs ih =>
    cases vs with
    | nil =>
      rw [jsize_list, render_elems, jsize_list]
      have := H v (List.mem_cons_self v [])
      omega
    | cons w vs' =>
      rw [jsize_list]
      show _ ≤ (render v ++ ',' :: ' ' :: render_elems (w :: vs')).length
      have h1 := H v (List.mem_cons_self v (w :: vs'))
      have h2 := ih fun x hx => H x (List.mem_cons_of_mem v hx)
      simp only [List.length_append, List.length_cons]
      omega

theorem jsize_fields_le_render_fields (l : List (String × Json))
    (H : ∀ k v, (k, v) ∈ l → jsize v ≤ (render v).length) :
    jsize_fields l ≤ (render_fields l).length := by
  induction l with
  | nil => simp [jsize_fields, render_fields]
  | cons a fs ih =>
    obtain ⟨k, v⟩ := a
    cases fs with
    | nil =>
      rw [jsize_fields, render_fields, jsize_fields]
      have := H k v (List.mem_cons_self (k, v) [])
      simp only [List.length_append, List.length_cons]
      omega
    | cons b fs' =>
      rw [jsize_fields]
      show _ ≤ (render_str k ++ ':' :: ' ' :: render v ++ ',' :: ' ' :: render_fields (b :: fs')).length
      have h1 := H k v (List.mem_cons_self (k, v) (b :: fs'))
      have h2 := ih fun k' v' hx => H k' v' (List.mem_cons_of_mem (k, v) hx)
      simp only [List.length_append, List.length_cons]
      omega

theorem jsize_le_render_length : ∀ N v, jsize v ≤ N → jsize v ≤ (render v).length := by
  intro N
  induction N with
  | zero => intro v hv; have := jsize_pos v; omega
  | succ N ih =>
    intro v hv
    cases v with
    | null => rw [jsize]; decide
    | jbool b => cases b <;> (rw [jsize]; decide)
    | jint n =>
      rw [jsize]
      show 1 ≤ (render_int n).length
      have : render_int n ≠ [] := by
        unfold render_int
        by_cases hn : n < 0
        · rw [if_pos hn]; exact List.cons_ne_nil _ _
        · rw [if_neg hn]; exact nat_chars_ne_nil _
      have := List.length_pos.mpr this
      omega
    | jstr s =>
      rw [jsize]
      show 1 ≤ ('"' :: (esc_list s.data ++ ['"'])).length
      simp
    | arr l =>
      rw [jsize] at hv ⊢
      show 1 + jsize_list l ≤ ('[' :: (render_elems l ++ [']'])).length
      have hl : jsize_list l ≤ (render_elems l).length := by
        apply jsize_list_le_render_elems
        intro v hvmem
        have h1 := jsize_list_mem hvmem
        exact ih v (by omega)
      simp only [List.length_cons, List.length_append]
      omega
    | obj l =>
      rw [jsize] at hv ⊢
      show 1 + jsize_fields l ≤ ('\x7b' :: (render_fields l ++ ['\x7d'])).length
      have hl : jsize_fields l ≤ (render_fields l).length := by
        apply jsize_fields_le_render_fields
        intro k v hvmem
        have h1 := jsize_fields_mem hvmem
        exact ih v (by omega)
      simp only [List.length_cons, List.length_append]
      omega

theorem parse_val_succ (f : Nat) (input : List Char) :
    parse_val (f + 1) input = parse_val_core (parse_val f) (skip_ws input) := rfl

theorem parse_val_space (f : Nat) (cs : List Char) :
    parse_val (f + 1) (' ' :: cs) = parse_val (f + 1) cs := by
  rw [parse_val_succ, parse_val_succ, skip_ws_space]

theorem head_not_digit_cons {c : Char} {t : List Char} (h : is_digit_char c = false) :
    head_not_digit (c :: t) := by
  show is_digit_char c = false
  exact h

theorem digit_good_head {c : Char} (h : is_digit_char c = true) : good_head c = true :=
  decide_eq_true (Or.inr (Or.inr (Or.inr (Or.inr (Or.inr (Or.inl h))))))

theorem render_elems_head (l : List Json) (hl : l ≠ []) :
    ∃ c t, render_elems l = c :: t ∧ good_head c = true := by
  cases l with
  | nil => exact absurd rfl hl
  | cons v vs =>
    obtain ⟨c, t, hct, hg⟩ := render_head v
    cases vs with
    | nil => exact ⟨c, t, hct, hg⟩
    | cons w vs' =>
      refine ⟨c, t ++ ',' :: ' ' :: render_elems (w :: vs'), ?_, hg⟩
      show render v ++ ',' :: ' ' :: render_elems (w :: vs') = _
      rw [hct, List.cons_append]

theorem elems_loop_succ (pv : List Char → Option (Json × List Char)) (fu : Nat)
    (cs : List Char) :
    elems_loop pv (fu + 1) cs =
      match pv cs with
      | none => none
      | some (v, r) =>
        match skip_ws r with
        | [] => none
        | c :: r2 =>
          if c = ']' then some ([v], r2)
          else if c = ',' then
            match elems_loop pv fu r2 with
            | some (vs, r3) => some (v :: vs, r3)
            | none => none
          else none := rfl

theorem fields_loop_succ (pv : List Char → Option (Json × List Char)) (fu : Nat)
    (cs : List Char) :
    fields_loop pv (fu + 1) cs =
      match skip_ws cs with
      | [] => none
      | c :: t =>
        if c = '"' then
          match parse_str_body t with
          | none => none
          | some (k, r) =>
            match skip_ws r with
            | [] => none
            | c2 :: r2 =>
              if c2 = ':' then
                match pv r2 with
                | none => none
                | some (v, r3) =>
                  match skip_ws r3 with
                  | [] => none
                  | c3 :: r4 =>
                    if c3 = '\x7d' then some ([(⟨k⟩, v)], r4)
                    else if c3 = ',' then
                      match fields_loop pv fu r4 with
                      | some (fs, r5) => some ((⟨k⟩, v) :: fs, r5)
                      | none => none
                    else none
              else none
        else none := rfl

theorem elems_loop_space (pv : List Char → Option (Json × List Char))
    (hpv_sp : ∀ cs, pv (' ' :: cs) = pv cs) (fu : Nat) (cs : List Char) :
    elems_loop pv (fu + 1) (' ' :: cs) = elems_loop pv (fu + 1) cs := by
  rw [elems_loop_succ, elems_loop_succ, hpv_sp]

theorem fields_loop_space (pv : List Char → Option (Json × List Char)) (fu : Nat)
    (cs : List Char) :
    fields_loop pv (fu + 1) (' ' :: cs) = fields_loop pv (fu + 1) cs := by
  rw [fields_loop_succ, fields_loop_succ, skip_ws_space]

theorem elems_loop_render (pv : List Char → Option (Json × List Char))
    (hpv_sp : ∀ cs, pv (' ' :: cs) = pv cs) :
    ∀ (l : List Json), l ≠ [] →
    (∀ v ∈ l, ∀ rest, head_not_digit rest → pv (render v ++ rest) = some (v, rest)) →
    ∀ fuel rest, l.length ≤ fuel →
      elems_loop pv fuel (render_elems l ++ ']' :: rest) = some (l, rest) := by
  intro l
  induction l with
  | nil => intro hl; exact absurd rfl hl
  | cons v vs ih =>
    intro _ H fuel rest hfuel
    obtain ⟨fu, rfl⟩ : ∃ fu, fuel = fu + 1 := by
      refine ⟨fuel - 1, ?_⟩
      simp only [List.length_cons] at hfuel
      omega
    cases vs with
    | nil =>
      show elems_loop pv (fu + 1) (render v ++ ']' :: rest) = some ([v], rest)
      rw [elems_loop_succ]
      rw [H v (List.mem_cons_self v []) (']' :: rest) (head_not_digit_cons (by decide))]
      show (match skip_ws (']' :: rest) with
        | [] => none
        | c :: r2 =>
          if c = ']' then some ([v], r2)
          else if c = ',' then
            match elems_loop pv fu r2 with
            | some (vs, r3) => some (v :: vs, r3)
            | none => none
          else none) = some ([v], rest)
      rw [skip_ws_cons_not _ (by decide)]
      rfl
    | cons w vs' =>
      show elems_loop pv (fu + 1)
        ((render v ++ ',' :: ' ' :: render_elems (w :: vs')) ++ ']' :: rest) = _
      rw [List.append_assoc]
      rw [elems_loop_succ]
      rw [show (',' :: ' ' :: render_elems (w :: vs')) ++ ']' :: rest =
        ',' :: ' ' :: (render_elems (w :: vs') ++ ']' :: rest) from rfl]
      rw [H v (List.mem_cons_self v (w :: vs'))
        (',' :: ' ' :: (render_elems (w :: vs') ++ ']' :: rest))
        (head_not_digit_cons (by decide))]
      show (match skip_ws (',' :: ' ' :: (render_elems (w :: vs') ++ ']' :: rest)) with
        | [] => none
        | c :: r2 =>
          if c = ']' then some ([v], r2)
          else if c = ',' then
            match elems_loop pv fu r2 with
            | some (vs, r3) => some (v :: vs, r3)
            | none => none
          else none) = some (v :: w :: vs', rest)
      rw [skip_ws_cons_not _ (by decide)]
      show (match elems_loop pv fu (' ' :: (render_elems (w :: vs') ++ ']' :: rest)) with
        | some (vs, r3) => some (v :: vs, r3)
        | none => none) = some (v :: w :: vs', rest)
      obtain ⟨fu', rfl⟩ : ∃ fu', fu = fu' + 1 := by
        refine ⟨fu - 1, ?_⟩
        simp only [List.length_cons] at hfuel
        omega
      rw [elems_loop_space pv hpv_sp]
      rw [ih (List.cons_ne_nil w vs') (fun x hx => H x (List.mem_cons_of_mem v hx))
        (fu' + 1) rest (by simp only [List.length_cons] at hfuel ⊢; omega)]

theorem fields_loop_render (pv : List Char → Option (Json × List Char))
    (hpv_sp : ∀ cs, pv (' ' :: cs) = pv cs) :
    ∀ (l : List (String × Json)), l ≠ [] →
    (∀ k v, (k, v) ∈ l → ∀ rest, head_not_digit rest → pv (render v ++ rest) = some (v, rest)) →
    ∀ fuel rest, l.length ≤ fuel →
      fields_loop pv fuel (render_fields l ++ '\x7d' :: rest) = some (l, rest) := by
  intro l
  induction l with
  | nil => intro hl; exact absurd rfl hl
  | cons a fs ih =>
    obtain ⟨k, v⟩ := a
    intro _ H fuel rest hfuel
    obtain ⟨fu, rfl⟩ : ∃ fu, fuel = fu + 1 := by
      refine ⟨fuel - 1, ?_⟩
      simp only [List.length_cons] at hfuel
      omega
    cases fs with
    | nil =>
      show fields_loop pv (fu + 1)
        ((render_str k ++ ':' :: ' ' :: render v) ++ '\x7d' :: rest) = _
      rw [fields_loop_succ]
      rw [show (render_str k ++ ':' :: ' ' :: render v) ++ '\x7d' :: rest =
        '"' :: (esc_list k.data ++ '"' :: (':' :: ' ' :: (render v ++ '\x7d' :: rest))) from by
          show ('"' :: (esc_list k.data ++ ['"']) ++ ':' :: ' ' :: render v) ++ '\x7d' :: rest = _
          simp]
      rw [skip_ws_cons_not _ (by decide)]
      show (match parse_str_body (esc_list k.data ++ '"' ::
          (':' :: ' ' :: (render v ++ '\x7d' :: rest))) with
        | none => none
        | some (k, r) =>
          match skip_ws r with
          | [] => none
          | c2 :: r2 =>
            if c2 = ':' then
              match pv r2 with
              | none => none
              | some (v, r3) =>
                match skip_ws r3 with
                | [] => none
                | c3 :: r4 =>
                  if c3 = '\x7d' then some ([(⟨k⟩, v)], r4)
                  else if c3 = ',' then
                    match fields_loop pv fu r4 with
                    | some (fs, r5) => some ((⟨k⟩, v) :: fs, r5)
                    | none => none
                  else none
            else none) = some ([(k, v)], rest)
      rw [parse_str_body_esc k.data]
      show (match skip_ws (':' :: ' ' :: (render v ++ '\x7d' :: rest)) with
        | [] => none
        | c2 :: r2 =>
          if c2 = ':' then
            match pv r2 with
            | none => none
            | some (v, r3) =>
              match skip_ws r3 with
              | [] => none
              | c3 :: r4 =>
                if c3 = '\x7d' then some ([(⟨k.data⟩, v)], r4)
                else if c3 = ',' then
                  match fields_loop pv fu r4 with
                  | some (fs, r5) => some ((⟨k.data⟩, v) :: fs, r5)
                  | none => none
                else none
          else none) = some ([(k, v)], rest)
      rw [skip_ws_cons_not _ (by decide)]
      show (match pv (' ' :: (render v ++ '\x7d' :: rest)) with
        | none => none
        | some (v, r3) =>
          match skip_ws r3 with
          | [] => none
          | c3 :: r4 =>
            if c3 = '\x7d' then some ([(⟨k.data⟩, v)], r4)
            else if c3 = ',' then
              match fields_loop pv fu r4 with
              | some (fs, r5) => some ((⟨k.data⟩, v) :: fs, r5)
              | none => none
            else none) = some ([(k, v)], rest)
      rw [hpv_sp]
      rw [H k v (List.mem_cons_self (k, v) []) ('\x7d' :: rest)
        (head_not_digit_cons (by decide))]
      show (match skip_ws ('\x7d' :: rest) with
        | [] => none
        | c3 :: r4 =>
          if c3 = '\x7d' then some ([(⟨k.data⟩, v)], r4)
          else if c3 = ',' then
            match fields_loop pv fu r4 with
            | some (fs, r5) => some ((⟨k.data⟩, v) :: fs, r5)
            | none => none
          else none) = some ([(k, v)], rest)
      rw [skip_ws_cons_not _ (by decide)]
      rfl
    | cons b fs' =>
      show fields_loop pv (fu + 1)
        ((render_str k ++ ':' :: ' ' :: render v ++ ',' :: ' ' :: render_fields (b :: fs')) ++
          '\x7d' :: rest) = _
      rw [fields_loop_succ]
      rw [show (render_str k ++ ':' :: ' ' :: render v ++
          ',' :: ' ' :: render_fields (b :: fs')) ++ '\x7d' :: rest =
        '"' :: (esc_list k.data ++ '"' :: (':' :: ' ' ::
          (render v ++ ',' :: ' ' :: (render_fields (b :: fs') ++ '\x7d' :: rest)))) from by
          simp [render_str]]
      rw [skip_ws_cons_not _ (by decide)]
      show (match parse_str_body (esc_list k.data ++ '"' :: (':' :: ' ' ::
          (render v ++ ',' :: ' ' :: (render_fields (b :: fs') ++ '\x7d' :: rest)))) with
        | none => none
        | some (k, r) =>
          match skip_ws r with
          | [] => none
          | c2 :: r2 =>
            if c2 = ':' then
              match pv r2 with
              | none => none
              | some (v, r3) =>
                match skip_ws r3 with
                | [] => none
                | c3 :: r4 =>
                  if c3 = '\x7d' then some ([(⟨k⟩, v)], r4)
                  else if c3 = ',' then
                    match fields_loop pv fu r4 with
                    | some (fs, r5) => some ((⟨k⟩, v) :: fs, r5)
                    | none => none
                  else none
            else none) = some ((k, v) :: b :: fs', rest)
      rw [parse_str_body_esc k.data]
      show (match skip_ws (':' :: ' ' ::
          (render v ++ ',' :: ' ' :: (render_fields (b :: fs') ++ '\x7d' :: rest))) with
        | [] => none
        | c2 :: r2 =>
          if c2 = ':' then
            match pv r2 with
            | none => none
            | some (v, r3) =>
              match skip_ws r3 with
              | [] => none
              | c3 :: r4 =>
                if c3 = '\x7d' then some ([(⟨k.data⟩, v)], r4)
                else if c3 = ',' then
                  match fields_loop pv fu r4 with
                  | some (fs, r5) => some ((⟨k.data⟩, v) :: fs, r5)
                  | none => none
                else none
          else none) = some ((k, v) :: b :: fs', rest)
      rw [skip_ws_cons_not _ (by decide)]
      show (match pv (' ' ::
          (render v ++ ',' :: ' ' :: (render_fields (b :: fs') ++ '\x7d' :: rest))) with
        | none => none
        | some (v, r3) =>
          match skip_ws r3 with
          | [] => none
          | c3 :: r4 =>
            if c3 = '\x7d' then some ([(⟨k.data⟩, v)], r4)
            else if c3 = ',' then
              match fields_loop pv fu r4 with
              | some (fs, r5) => some ((⟨k.data⟩, v) :: fs, r5)
              | none => none
            else none) = some ((k, v) :: b :: fs', rest)
      rw [hpv_sp]
      rw [H k v (List.mem_cons_self (k, v) (b :: fs'))
        (',' :: ' ' :: (render_fields (b :: fs') ++ '\x7d' :: rest))
        (head_not_digit_cons (by decide))]
      show (match skip_ws (',' :: ' ' :: (render_fields (b :: fs') ++ '\x7d' :: rest)) with
        | [] => none
        | c3 :: r4 =>
          if c3 = '\x7d' then some ([(⟨k.data⟩, v)], r4)
          else if c3 = ',' then
            match fields_loop pv fu r4 with
            | some (fs, r5) => some ((⟨k.data⟩, v) :: fs, r5)
            | none => none
          else none) = some ((k, v) :: b :: fs', rest)
      rw [skip_ws_cons_not _ (by decide)]
      show (if (',' : Char) = '\x7d' then
          some ([((⟨k.data⟩ : String), v)], ' ' :: (render_fields (b :: fs') ++ '\x7d' :: rest))
        else if (',' : Char) = ',' then
          match fields_loop pv fu (' ' :: (render_fields (b :: fs') ++ '\x7d' :: rest)) with
          | some (fs, r5) => some ((⟨k.data⟩, v) :: fs, r5)
          | none => none
        else none) = some ((k, v) :: b :: fs', rest)
      rw [if_neg (by decide), if_pos rfl]
      obtain ⟨fu', rfl⟩ : ∃ fu', fu = fu' + 1 := by
        refine ⟨fu - 1, ?_⟩
        simp only [List.length_cons] at hfuel
        omega
      rw [fields_loop_space pv]
      rw [ih (List.cons_ne_nil b fs') (fun k' v' hx => H k' v' (List.mem_cons_of_mem (k, v) hx))
        (fu' + 1) rest (by simp only [List.length_cons] at hfuel ⊢; omega)]

theorem pvc_null (pv : List Char → Option (Json × List Char)) (rest : List Char) :
    parse_val_core pv ('n' :: 'u' :: 'l' :: 'l' :: rest) = some (.null, rest) := rfl

theorem pvc_true (pv : List Char → Option (Json × List Char)) (rest : List Char) :
    parse_val_core pv ('t' :: 'r' :: 'u' :: 'e' :: rest) = some (.jbool true, rest) := rfl

theorem pvc_false (pv : List Char → Option (Json × List Char)) (rest : List Char) :
    parse_val_core pv ('f' :: 'a' :: 'l' :: 's' :: 'e' :: rest) = some (.jbool false, rest) := rfl

theorem pvc_str (pv : List Char → Option (Json × List Char)) (t : List Char) :
    parse_val_core pv ('"' :: t) =
      match parse_str_body t with
      | some sr => some (.jstr ⟨sr.1⟩, sr.2)
      | none => none := rfl

theorem pvc_neg (pv : List Char → Option (Json × List Char)) (t : List Char) :
    parse_val_core pv ('-' :: t) =
      match t with
      | [] => none
      | d :: t2 =>
        if is_digit_char d then
          some (.jint (-((parse_nat_loop (d.toNat - 48) t2).1 : Int)),
            (parse_nat_loop (d.toNat - 48) t2).2)
        else none := rfl

theorem pvc_arr (pv : List Char → Option (Json × List Char)) (t : List Char) :
    parse_val_core pv ('[' :: t) =
      match skip_ws t with
      | [] => none
      | c2 :: t2 =>
        if c2 = ']' then some (.arr [], t2)
        else
          match elems_loop pv (t2.length + 1) (c2 :: t2) with
          | some (vs, r) => some (.arr vs, r)
          | none => none := rfl

theorem pvc_obj (pv : List Char → Option (Json × List Char)) (t : List Char) :
    parse_val_core pv ('\x7b' :: t) =
      match skip_ws t with
      | [] => none
      | c2 :: t2 =>
        if c2 = '\x7d' then some (.obj [], t2)
        else
          match fields_loop pv (t2.length + 1) (c2 :: t2) with
          | some (fs, r) => some (.obj fs, r)
          | none => none := rfl

theorem pvc_cons (pv : List Char → Option (Json × List Char)) (c : Char) (t : List Char) :
    parse_val_core pv (c :: t) =
      (if c = 'n' then
        match t with
        | 'u' :: 'l' :: 'l' :: r => some (.null, r)
        | _ => none
      else if c = 't' then
        match t with
        | 'r' :: 'u' :: 'e' :: r => some (.jbool true, r)
        | _ => none
      else if c = 'f' then
        match t with
        | 'a' :: 'l' :: 's' :: 'e' :: r => some (.jbool false, r)
        | _ => none
      else if c = '"' then
        match parse_str_body t with
        | some sr => some (.jstr ⟨sr.1⟩, sr.2)
        | none => none
      else if c = '-' then
        match t with
        | [] => none
        | d :: t2 =>
          if is_digit_char d then
            some (.jint (-((parse_nat_loop (d.toNat - 48) t2).1 : Int)),
              (parse_nat_loop (d.toNat - 48) t2).2)
          else none
      else if is_digit_char c then
        some (.jint ((parse_nat_loop (c.toNat - 48) t).1 : Int),
          (parse_nat_loop (c.toNat - 48) t).2)
      else if c = '[' then
        match skip_ws t with
        | [] => none
        | c2 :: t2 =>
          if c2 = ']' then some (.arr [], t2)
          else
            match elems_loop pv (t2.length + 1) (c2 :: t2) with
            | some (vs, r) => some (.arr vs, r)
            | none => none
      else if c = '\x7b' then
        match skip_ws t with
        | [] => none
        | c2 :: t2 =>
          if c2 = '\x7d' then some (.obj [], t2)
          else
            match fields_loop pv (t2.length + 1) (c2 :: t2) with
            | some (fs, r) => some (.obj fs, r)
            | none => none
      else none) := rfl

theorem render_fields_head (l : List (String × Json)) (hl : l ≠ []) :
    ∃ t, render_fields l = '"' :: t := by
  cases l with
  | nil => exact absurd rfl hl
  | cons a fs =>
    obtain ⟨k, v⟩ := a
    cases fs with
    | nil => exact ⟨_, rfl⟩
    | cons b fs' => exact ⟨_, rfl⟩

theorem parse_val_render_aux : ∀ N : Nat, ∀ v : Json, jsize v ≤ N →
    ∀ f rest, jsize v ≤ f → head_not_digit rest →
      parse_val f (render v ++ rest) = some (v, rest) := by
  intro N
  induction N with
  | zero =>
    intro v hv _ _ _ _
    exact absurd hv (by have := jsize_pos v; omega)
  | succ N ih =>
    intro v hv f rest hf hrest
    obtain ⟨g, rfl⟩ : ∃ g, f = g + 1 := ⟨f - 1, by have := jsize_pos v; omega⟩
    rw [parse_val_succ]
    cases v with
    | null =>
      rw [show render .null ++ rest = 'n' :: 'u' :: 'l' :: 'l' :: rest from rfl]
      rw [skip_ws_cons_not _ (by decide)]
      exact pvc_null _ _
    | jbool b =>
      cases b
      · rw [show render (.jbool false) ++ rest = 'f' :: 'a' :: 'l' :: 's' :: 'e' :: rest from rfl]
        rw [skip_ws_cons_not _ (by decide)]
        exact pvc_false _ _
      · rw [show render (.jbool true) ++ rest = 't' :: 'r' :: 'u' :: 'e' :: rest from rfl]
        rw [skip_ws_cons_not _ (by decide)]
        exact pvc_true _ _
    | jint n =>
      by_cases hn : n < 0
      · rw [show render (.jint n) ++ rest = '-' :: (nat_chars n.natAbs ++ rest) from by
          show render_int n ++ rest = _
          rw [render_int, if_pos hn, List.cons_append]]
        rw [skip_ws_cons_not _ (by decide), pvc_neg]
        obtain ⟨c, t, hct, hdig, hparse⟩ := parse_nat_chars n.natAbs rest hrest
        rw [hct]
        show (if is_digit_char c = true then
            some (Json.jint (-((parse_nat_loop (c.toNat - 48) t).1 : Int)),
              (parse_nat_loop (c.toNat - 48) t).2)
          else none) = some (.jint n, rest)
        rw [if_pos hdig, hparse]
        have he : -((n.natAbs : Int)) = n := by omega
        rw [he]
      · rw [show render (.jint n) ++ rest = nat_chars n.natAbs ++ rest from by
          show render_int n ++ rest = _
          rw [render_int, if_neg hn]]
        obtain ⟨c, t, hct, hdig, hparse⟩ := parse_nat_chars n.natAbs rest hrest
        rw [hct]
        obtain ⟨hws, -, -, -, -⟩ := good_head_facts (digit_good_head hdig)
        rw [skip_ws_cons_not _ hws, pvc_cons]
        have hc1 : ¬ c = 'n' := fun he => by rw [he] at hdig; exact absurd hdig (by decide)
        have hc2 : ¬ c = 't' := fun he => by rw [he] at hdig; exact absurd hdig (by decide)
        have hc3 : ¬ c = 'f' := fun he => by rw [he] at hdig; exact absurd hdig (by decide)
        have hc4 : ¬ c = '"' := fun he => by rw [he] at hdig; exact absurd hdig (by decide)
        have hc5 : ¬ c = '-' := fun he => by rw [he] at hdig; exact absurd hdig (by decide)
        rw [if_neg hc1, if_neg hc2, if_neg hc3, if_neg hc4, if_neg hc5, if_pos hdig, hparse]
        have he : ((n.natAbs : Int)) = n := by omega
        rw [he]
    | jstr s =>
      rw [show render (.jstr s) ++ rest = '"' :: (esc_list s.data ++ '"' :: rest) from by
        show ('"' :: (esc_list s.data ++ ['"'])) ++ rest = _
        simp]
      rw [skip_ws_cons_not _ (by decide), pvc_str, parse_str_body_esc s.data]
    | arr l =>
      cases l with
      | nil =>
        rw [show render (.arr []) ++ rest = '[' :: ']' :: rest from rfl]
        rw [skip_ws_cons_not _ (by decide), pvc_arr]
        rw [skip_ws_cons_not _ (by decide)]
        rfl
      | cons v0 vs =>
        rw [show render (.arr (v0 :: vs)) ++ rest =
            '[' :: (render_elems (v0 :: vs) ++ ']' :: rest) from by
          show ('[' :: (render_elems (v0 :: vs) ++ [']'])) ++ rest = _
          simp]
        rw [skip_ws_cons_not _ (by decide), pvc_arr]
        obtain ⟨c, t, hct, hg⟩ := render_elems_head (v0 :: vs) (List.cons_ne_nil _ _)
        obtain ⟨hws, -, hbr, -, -⟩ := good_head_facts hg
        rw [show render_elems (v0 :: vs) ++ ']' :: rest = c :: (t ++ ']' :: rest) from by
          rw [hct, List.cons_append]]
        rw [skip_ws_cons_not _ hws]
        show (if c = ']' then some (Json.arr [], t ++ ']' :: rest)
          else
            match elems_loop (parse_val g) ((t ++ ']' :: rest).length + 1)
                (c :: (t ++ ']' :: rest)) with
            | some (vs', r) => some (Json.arr vs', r)
            | none => none) = some (.arr (v0 :: vs), rest)
        rw [if_neg hbr]
        rw [show c :: (t ++ ']' :: rest) = render_elems (v0 :: vs) ++ ']' :: rest from by
          rw [hct, List.cons_append]]
        have hsz : jsize_list (v0 :: vs) ≤ N ∧ jsize_list (v0 :: vs) ≤ g := by
          rw [jsize] at hv hf
          omega
        have hg1 : 1 ≤ g := by
          have h1 : 1 ≤ jsize v0 := jsize_pos v0
          have h2 : jsize v0 ≤ jsize_list (v0 :: vs) := jsize_list_mem (List.mem_cons_self v0 vs)
          omega
        obtain ⟨g', rfl⟩ : ∃ g', g = g' + 1 := ⟨g - 1, by omega⟩
        have Hel : ∀ v' ∈ v0 :: vs, ∀ rest', head_not_digit rest' →
            parse_val (g' + 1) (render v' ++ rest') = some (v', rest') := by
          intro v' hv' rest' hrest'
          have h1 : jsize v' ≤ jsize_list (v0 :: vs) := jsize_list_mem hv'
          exact ih v' (by omega) (g' + 1) rest' (by omega) hrest'
        have hfuel : (v0 :: vs).length ≤ (t ++ ']' :: rest).length + 1 := by
          have h1 := length_le_render_elems (v0 :: vs)
          have h2 := congrArg List.length hct
          simp only [List.length_cons, List.length_append] at h1 h2 ⊢
          omega
        rw [elems_loop_render (parse_val (g' + 1)) (parse_val_space g') (v0 :: vs)
          (List.cons_ne_nil _ _) Hel ((t ++ ']' :: rest).length + 1) rest hfuel]
    | obj l =>
      cases l with
      | nil =>
        rw [show render (.obj []) ++ rest = '\x7b' :: '\x7d' :: rest from rfl]
        rw [skip_ws_cons_not _ (by decide), pvc_obj]
        rw [skip_ws_cons_not _ (by decide)]
        rfl
      | cons a fs =>
        rw [show render (.obj (a :: fs)) ++ rest =
            '\x7b' :: (render_fields (a :: fs) ++ '\x7d' :: rest) from by
          show ('\x7b' :: (render_fields (a :: fs) ++ ['\x7d'])) ++ rest = _
          simp]
        rw [skip_ws_cons_not _ (by decide), pvc_obj]
        obtain ⟨t, hct⟩ := render_fields_head (a :: fs) (List.cons_ne_nil _ _)
        rw [show render_fields (a :: fs) ++ '\x7d' :: rest = '"' :: (t ++ '\x7d' :: rest) from by
          rw [hct, List.cons_append]]
        rw [skip_ws_cons_not _ (by decide)]
        show (if ('"' : Char) = '\x7d' then some (Json.obj [], t ++ '\x7d' :: rest)
          else
            match fields_loop (parse_val g) ((t ++ '\x7d' :: rest).length + 1)
                ('"' :: (t ++ '\x7d' :: rest)) with
            | some (fs', r) => some (Json.obj fs', r)
            | none => none) = some (.obj (a :: fs), rest)
        rw [if_neg (by decide)]
        rw [show ('"' : Char) :: (t ++ '\x7d' :: rest) =
            render_fields (a :: fs) ++ '\x7d' :: rest from by
          rw [hct, List.cons_append]]
        obtain ⟨k0, v0⟩ := a
        have hsz : jsize_fields ((k0, v0) :: fs) ≤ N ∧ jsize_fields ((k0, v0) :: fs) ≤ g := by
          rw [jsize] at hv hf
          omega
        have hg1 : 1 ≤ g := by
          have h1 : 1 ≤ jsize v0 := jsize_pos v0
          have h2 : jsize v0 ≤ jsize_fields ((k0, v0) :: fs) :=
            jsize_fields_mem (List.mem_cons_self (k0, v0) fs)
          omega
        obtain ⟨g', rfl⟩ : ∃ g', g = g' + 1 := ⟨g - 1, by omega⟩
        have Hfl : ∀ k v, (k, v) ∈ (k0, v0) :: fs → ∀ rest', head_not_digit rest' →
            parse_val (g' + 1) (render v ++ rest') = some (v, rest') := by
          intro k v hkv rest' hrest'
          have h1 : jsize v ≤ jsize_fields ((k0, v0) :: fs) := jsize_fields_mem hkv
          exact ih v (by omega) (g' + 1) rest' (by omega) hrest'
        have hfuel : ((k0, v0) :: fs).length ≤ (t ++ '\x7d' :: rest).length + 1 := by
          have h1 : ((k0, v0) :: fs).length ≤ (render_fields ((k0, v0) :: fs)).length :=
            length_le_render_fields _
          have h2 := congrArg List.length hct
          simp only [List.length_cons, List.length_append] at h1 h2 ⊢
          omega
        rw [fields_loop_render (parse_val (g' + 1)) (parse_val_space g') ((k0, v0) :: fs)
          (List.cons_ne_nil _ _) Hfl ((t ++ '\x7d' :: rest).length + 1) rest hfuel]

theorem jloads_render (v : Json) : jloads_chars (render v) = some v := by
  unfold jloads_chars
  have h1 : parse_val ((render v).length + 1) (render v ++ []) = some (v, []) :=
    parse_val_render_aux (jsize v) v le_rfl ((render v).length + 1) []
      (by have := jsize_le_render_length (jsize v) v le_rfl; omega) trivial
  rw [List.append_nil] at h1
  rw [h1]
  rfl

theorem splitlines_go_no_boundary : ∀ (l : List Char),
    (∀ c ∈ l, is_line_boundary c = false) →
    ∀ cs acc, splitlines_go (l ++ cs) acc = splitlines_go cs (l.reverse ++ acc) := by
  intro l
  induction l with
  | nil => intro _ cs acc; rfl
  | cons c l' ih =>
    intro H cs acc
    have hc : is_line_boundary c = false := H c (List.mem_cons_self c l')
    have hc13 : ¬ c.toNat = 13 := by
      intro h13
      rw [show is_line_boundary c = true from decide_eq_true (Or.inr (Or.inl h13))] at hc
      exact Bool.noConfusion hc
    have H' : ∀ x ∈ l', is_line_boundary x = false := fun x hx =>
      H x (List.mem_cons_of_mem c hx)
    show splitlines_go (c :: (l' ++ cs)) acc = splitlines_go cs ((c :: l').reverse ++ acc)
    rcases hlc : l' ++ cs with - | ⟨c2, t⟩
    · have hl' : l' = [] := (List.append_eq_nil.mp hlc).1
      have hcs : cs = [] := (List.append_eq_nil.mp hlc).2
      subst hl'
      subst hcs
      show (if is_line_boundary c = true then [acc.reverse] else [(c :: acc).reverse]) = _
      rw [hc]
      show [(c :: acc).reverse] = if (c :: acc) = [] then [] else [(c :: acc).reverse]
      rw [if_neg (List.cons_ne_nil c acc)]
    · show (if c.toNat = 13 ∧ c2.toNat = 10 then acc.reverse :: splitlines_go t []
        else if is_line_boundary c = true then acc.reverse :: splitlines_go (c2 :: t) []
        else splitlines_go (c2 :: t) (c :: acc)) = _
      rw [if_neg (fun h => hc13 h.1), hc]
      show splitlines_go (c2 :: t) (c :: acc) = _
      rw [← hlc, ih H' cs (c :: acc)]
      rw [List.reverse_cons, List.append_assoc]
      rfl

theorem intercalate_nl_ne_nil (l : List Char) (ls : List (List Char)) (hl : l ≠ []) :
    intercalate_nl (l :: ls) ≠ [] := by
  cases ls with
  | nil => exact hl
  | cons l2 ls' =>
    show l ++ '\n' :: intercalate_nl (l2 :: ls') ≠ []
    intro hc
    exact List.cons_ne_nil _ _ (List.append_eq_nil.mp hc).2

theorem py_splitlines_intercalate : ∀ lines : List (List Char),
    (∀ l ∈ lines, l ≠ [] ∧ ∀ c ∈ l, is_line_boundary c = false) →
    py_splitlines (intercalate_nl lines) = lines := by
  intro lines
  induction lines with
  | nil => intro _; rfl
  | cons l ls ih =>
    intro H
    obtain ⟨hlne, hlnb⟩ := H l (List.mem_cons_self l ls)
    cases ls with
    | nil =>
      show splitlines_go (intercalate_nl [l]) [] = [l]
      rw [show intercalate_nl [l] = l from rfl]
      have hkey := splitlines_go_no_boundary l hlnb [] []
      rw [List.append_nil] at hkey
      rw [hkey]
      have hstep : splitlines_go [] (l.reverse ++ []) =
          if l.reverse ++ [] = [] then [] else [(l.reverse ++ []).reverse] := rfl
      rw [hstep]
      rw [List.append_nil, List.reverse_reverse,
        if_neg (fun h => hlne (List.reverse_eq_nil_iff.mp h))]
    | cons l2 ls' =>
      obtain ⟨h2ne, -⟩ := H l2 (List.mem_cons_of_mem l (List.mem_cons_self l2 ls'))
      show splitlines_go (l ++ '\n' :: intercalate_nl (l2 :: ls')) [] = l :: l2 :: ls'
      rw [splitlines_go_no_boundary l hlnb _ []]
      obtain ⟨x, xs, hx⟩ := List.exists_cons_of_ne_nil (intercalate_nl_ne_nil l2 ls' h2ne)
      rw [hx]
      have hstep : splitlines_go ('\n' :: x :: xs) (l.reverse ++ []) =
          if ('\n').toNat = 13 ∧ x.toNat = 10 then
            (l.reverse ++ []).reverse :: splitlines_go xs []
          else if is_line_boundary '\n' = true then
            (l.reverse ++ []).reverse :: splitlines_go (x :: xs) []
          else splitlines_go (x :: xs) ('\n' :: (l.reverse ++ [])) := rfl
      rw [hstep]
      rw [if_neg (fun h => absurd h.1 (by decide)), if_pos (by decide)]
      rw [List.append_nil, List.reverse_reverse, ← hx]
      rw [show splitlines_go (intercalate_nl (l2 :: ls')) [] =
        py_splitlines (intercalate_nl (l2 :: ls')) from rfl]
      rw [ih fun x hxm => H x (List.mem_cons_of_mem l hxm)]

theorem hex_digit_toNat {m : Nat} (h : m < 16) :
    (hex_digit m).toNat = if m < 10 then 48 + m else 87 + m := by
  unfold hex_digit
  by_cases h10 : m < 10
  · rw [if_pos h10, if_pos h10]
    exact char_toNat_ofNat (by omega)
  · rw [if_neg h10, if_neg h10]
    exact char_toNat_ofNat (by omega)

theorem esc_char_no_boundary (c0 : Char)
    (hc0 : c0.toNat ≠ 133 ∧ c0.toNat ≠ 8232 ∧ c0.toNat ≠ 8233) :
    ∀ x ∈ esc_char c0, is_line_boundary x = false := by
  intro x hx
  unfold esc_char at hx
  by_cases h1 : c0 = '"'
  · rw [if_pos h1] at hx
    rcases List.mem_cons.mp hx with rfl | hx
    · decide
    · rw [List.mem_singleton.mp hx]; decide
  · rw [if_neg h1] at hx
    by_cases h2 : c0 = '\\'
    · rw [if_pos h2] at hx
      rcases List.mem_cons.mp hx with rfl | hx
      · decide
      · rw [List.mem_singleton.mp hx]; decide
    · rw [if_neg h2] at hx
      by_cases h3 : c0 = '\n'
      · rw [if_pos h3] at hx
        rcases List.mem_cons.mp hx with rfl | hx
        · decide
        · rw [List.mem_singleton.mp hx]; decide
      · rw [if_neg h3] at hx
        by_cases h4 : c0 = '\r'
        · rw [if_pos h4] at hx
          rcases List.mem_cons.mp hx with rfl | hx
          · decide
          · rw [List.mem_singleton.mp hx]; decide
        · rw [if_neg h4] at hx
          by_cases h5 : c0 = '\t'
          · rw [if_pos h5] at hx
            rcases List.mem_cons.mp hx with rfl | hx
            · decide
            · rw [List.mem_singleton.mp hx]; decide
          · rw [if_neg h5] at hx
            by_cases h6 : c0 = '\x08'
            · rw [if_pos h6] at hx
              rcases List.mem_cons.mp hx with rfl | hx
              · decide
              · rw [List.mem_singleton.mp hx]; decide
            · rw [if_neg h6] at hx
              by_cases h7 : c0 = '\x0c'
              · rw [if_pos h7] at hx
                rcases List.mem_cons.mp hx with rfl | hx
                · decide
                · rw [List.mem_singleton.mp hx]; decide
              · rw [if_neg h7] at hx
                by_cases h8 : c0.toNat < 32
                · rw [if_pos h8] at hx
                  have hhex : ∀ m, m < 16 → is_line_boundary (hex_digit m) = false := by
                    intro m hm
                    unfold is_line_boundary
                    apply decide_eq_false
                    rw [hex_digit_toNat hm]
                    by_cases hm10 : m < 10
                    · rw [if_pos hm10]; omega
                    · rw [if_neg hm10]; omega
                  rcases List.mem_cons.mp hx with rfl | hx
                  · decide
                  rcases List.mem_cons.mp hx with rfl | hx
                  · decide
                  rcases List.mem_cons.mp hx with rfl | hx
                  · decide
                  rcases List.mem_cons.mp hx with rfl | hx
                  · decide
                  rcases List.mem_cons.mp hx with rfl | hx
                  · exact hhex _ (by omega)
                  rw [List.mem_singleton.mp hx]
                  exact hhex _ (Nat.mod_lt _ (by omega))
                · rw [if_neg h8] at hx
                  rw [List.mem_singleton.mp hx]
                  unfold is_line_boundary
                  apply decide_eq_false
                  have hq : c0.toNat ≠ 34 := fun h =>
                    h1 (char_toNat_inj (h.trans (by decide)))
                  omega

theorem esc_list_no_boundary (l : List Char)
    (hl : ∀ c ∈ l, c.toNat ≠ 133 ∧ c.toNat ≠ 8232 ∧ c.toNat ≠ 8233) :
    ∀ x ∈ esc_list l, is_line_boundary x = false := by
  induction l with
  | nil => intro x hx; exact absurd hx (List.not_mem_nil x)
  | cons c t ih =>
    intro x hx
    rcases List.mem_append.mp hx with hx1 | hx1
    · exact esc_char_no_boundary c (hl c (List.mem_cons_self c t)) x hx1
    · exact ih (fun y hy => hl y (List.mem_cons_of_mem c hy)) x hx1

theorem render_str_no_boundary (s : String) (hs : str_clean s = true) :
    ∀ x ∈ render_str s, is_line_boundary x = false := by
  intro x hx
  have hdata : ∀ c ∈ s.data, c.toNat ≠ 133 ∧ c.toNat ≠ 8232 ∧ c.toNat ≠ 8233 := by
    intro c hc
    have := List.all_eq_true.mp hs c hc
    exact of_decide_eq_true this
  rcases List.mem_cons.mp hx with rfl | hx1
  · decide
  rcases List.mem_append.mp hx1 with hx2 | hx2
  · exact esc_list_no_boundary s.data hdata x hx2
  · rw [List.mem_singleton.mp hx2]; decide

theorem render_int_no_boundary (n : Int) : ∀ x ∈ render_int n, is_line_boundary x = false := by
  intro x hx
  have hdig : ∀ c ∈ nat_chars n.natAbs, is_line_boundary c = false := by
    intro c hc
    obtain ⟨d, hd, rfl⟩ := nat_chars_digits n.natAbs c hc
    unfold is_line_boundary
    apply decide_eq_false
    rw [digit_char_toNat hd]
    omega
  unfold render_int at hx
  by_cases hn : n < 0
  · rw [if_pos hn] at hx
    rcases List.mem_cons.mp hx with rfl | hx1
    · decide
    · exact hdig x hx1
  · rw [if_neg hn] at hx
    exact hdig x hx

theorem jclean_list_mem {l : List Json} (h : jclean_list l = true) :
    ∀ v ∈ l, jclean v = true := by
  induction l with
  | nil => intro v hv; exact absurd hv (List.not_mem_nil v)
  | cons a t ih =>
    rw [jclean_list, Bool.and_eq_true] at h
    intro v hv
    rcases List.mem_cons.mp hv with rfl | hv1
    · exact h.1
    · exact ih h.2 v hv1

theorem jclean_fields_mem {l : List (String × Json)} (h : jclean_fields l = true) :
    ∀ k v, (k, v) ∈ l → str_clean k = true ∧ jclean v = true := by
  induction l with
  | nil => intro k v hv; exact absurd hv (List.not_mem_nil (k, v))
  | cons a t ih =>
    obtain ⟨k0, v0⟩ := a
    rw [jclean_fields, Bool.and_eq_true, Bool.and_eq_true] at h
    intro k v hv
    rcases List.mem_cons.mp hv with h1 | h1
    · obtain ⟨rfl, rfl⟩ := Prod.mk.injEq _ _ _ _ ▸ h1
      exact ⟨h.1.1, h.1.2⟩
    · exact ih h.2 k v h1

theorem render_elems_no_boundary (l : List Json)
    (H : ∀ v ∈ l, ∀ x ∈ render v, is_line_boundary x = false) :
    ∀ x ∈ render_elems l, is_line_boundary x = false := by
  induction l with
  | nil => intro x hx; exact absurd hx (List.not_mem_nil x)
  | cons v vs ih =>
    intro x hx
    cases vs with
    | nil => exact H v (List.mem_cons_self v []) x hx
    | cons w vs' =>
      rw [show render_elems (v :: w :: vs') =
        render v ++ ',' :: ' ' :: render_elems (w :: vs') from rfl] at hx
      rcases List.mem_append.mp hx with hx1 | hx1
      · exact H v (List.mem_cons_self v (w :: vs')) x hx1
      rcases List.mem_cons.mp hx1 with rfl | hx2
      · decide
      rcases List.mem_cons.mp hx2 with rfl | hx3
      · decide
      · exact ih (fun y hy => H y (List.mem_cons_of_mem v hy)) x hx3

theorem render_fields_no_boundary (l : List (String × Json))
    (Hk : ∀ k v, (k, v) ∈ l → ∀ x ∈ render_str k, is_line_boundary x = false)
    (H : ∀ k v, (k, v) ∈ l → ∀ x ∈ render v, is_line_boundary x = false) :
    ∀ x ∈ render_fields l, is_line_boundary x = false := by
  induction l with
  | nil => intro x hx; exact absurd hx (List.not_mem_nil x)
  | cons a fs ih =>
    obtain ⟨k, v⟩ := a
    intro x hx
    cases fs with
    | nil =>
      rw [show render_fields [(k, v)] = render_str k ++ ':' :: ' ' :: render v from rfl] at hx
      rcases List.mem_append.mp hx with hx1 | hx1
      · exact Hk k v (List.mem_cons_self (k, v) []) x hx1
      rcases List.mem_cons.mp hx1 with rfl | hx2
      · decide
      rcases List.mem_cons.mp hx2 with rfl | hx3
      · decide
      · exact H k v (List.mem_cons_self (k, v) []) x hx3
    | cons b fs' =>
      rw [show render_fields ((k, v) :: b :: fs') =
        (render_str k ++ ':' :: ' ' :: render v) ++ ',' :: ' ' :: render_fields (b :: fs')
        from rfl] at hx
      rcases List.mem_append.mp hx with hx0 | hx0
      · rcases List.mem_append.mp hx0 with hx1 | hx1
        · exact Hk k v (List.mem_cons_self (k, v) (b :: fs')) x hx1
        rcases List.mem_cons.mp hx1 with rfl | hx2
        · decide
        rcases List.mem_cons.mp hx2 with rfl | hx3
        · decide
        · exact H k v (List.mem_cons_self (k, v) (b :: fs')) x hx3
      · rcases List.mem_cons.mp hx0 with rfl | hx1
        · decide
        rcases List.mem_cons.mp hx1 with rfl | hx2
        · decide
        · exact ih (fun k' v' hkv => Hk k' v' (List.mem_cons_of_mem (k, v) hkv))
            (fun k' v' hkv => H k' v' (List.mem_cons_of_mem (k, v) hkv)) x hx2

theorem render_no_boundary : ∀ N v, jsize v ≤ N → jclean v = true →
    ∀ c ∈ render v, is_line_boundary c = false := by
  intro N
  induction N with
  | zero => intro v hv; exact absurd hv (by have := jsize_pos v; omega)
  | succ N ih =>
    intro v hv hclean c hc
    cases v with
    | null =>
      rcases List.mem_cons.mp hc with rfl | hc1
      · decide
      rcases List.mem_cons.mp hc1 with rfl | hc2
      · decide
      rcases List.mem_cons.mp hc2 with rfl | hc3
      · decide
      rw [List.mem_singleton.mp hc3]; decide
    | jbool b =>
      cases b <;> revert hc <;> intro hc
      · rcases List.mem_cons.mp hc with rfl | hc1
        · decide
        rcases List.mem_cons.mp hc1 with rfl | hc2
        · decide
        rcases List.mem_cons.mp hc2 with rfl | hc3
        · decide
        rcases List.mem_cons.mp hc3 with rfl | hc4
        · decide
        rw [List.mem_singleton.mp hc4]; decide
      · rcases List.mem_cons.mp hc with rfl | hc1
        · decide
        rcases List.mem_cons.mp hc1 with rfl | hc2
        · decide
        rcases List.mem_cons.mp hc2 with rfl | hc3
        · decide
        rw [List.mem_singleton.mp hc3]; decide
    | jint n => exact render_int_no_boundary n c hc
    | jstr s => exact render_str_no_boundary s hclean c hc
    | arr l =>
      rw [show render (.arr l) = '[' :: (render_elems l ++ [']']) from rfl] at hc
      rcases List.mem_cons.mp hc with rfl | hc1
      · decide
      rcases List.mem_append.mp hc1 with hc2 | hc2
      · have hcl : jclean_list l = true := hclean
        rw [jsize] at hv
        refine render_elems_no_boundary l ?_ c hc2
        intro v' hv' x hx
        exact ih v' (by have := jsize_list_mem hv'; omega) (jclean_list_mem hcl v' hv') x hx
      · rw [List.mem_singleton.mp hc2]; decide
    | obj l =>
      rw [show render (.obj l) = '\x7b' :: (render_fields l ++ ['\x7d']) from rfl] at hc
      rcases List.mem_cons.mp hc with rfl | hc1
      · decide
      rcases List.mem_append.mp hc1 with hc2 | hc2
      · have hcl : jclean_fields l = true := hclean
        rw [jsize] at hv
        refine render_fields_no_boundary l ?_ ?_ c hc2
        · intro k' v' hkv x hx
          exact render_str_no_boundary k' (jclean_fields_mem hcl k' v' hkv).1 x hx
        · intro k' v' hkv x hx
          exact ih v' (by have := jsize_fields_mem hkv; omega)
            (jclean_fields_mem hcl k' v' hkv).2 x hx
      · rw [List.mem_singleton.mp hc2]; decide

theorem render_not_blank (v : Json) : py_strip_list (render v) ≠ [] := by
  obtain ⟨c, t, hct, hg⟩ := render_head v
  obtain ⟨-, hps, -, -, -⟩ := good_head_facts hg
  rw [hct]
  intro hc
  have := (py_strip_list_eq_nil_iff (c :: t)).mp hc c (List.mem_cons_self c t)
  rw [hps] at this
  exact Bool.noConfusion this

theorem from_ndjson_lines_renders : ∀ msgs : List Json,
    from_ndjson_lines (msgs.map (fun m => render m)) = some msgs := by
  intro msgs
  induction msgs with
  | nil => rfl
  | cons m ms ih =>
    show (if py_strip_list (render m) = [] then from_ndjson_lines (ms.map fun m => render m)
      else
        match jloads_chars (render m), from_ndjson_lines (ms.map fun m => render m) with
        | some m2, some ms2 => some (m2 :: ms2)
        | _, _ => none) = some (m :: ms)
    rw [if_neg (render_not_blank m), jloads_render m, ih]


/-- A message whose content contains U+2028 (LINE SEPARATOR), which
`json.dumps(…, ensure_ascii=False)` emits literally and `str.splitlines`
treats as a line boundary. -/
def c8_cex : Json :=
  Json.obj [("id", Json.jstr "MSG001"), ("type", Json.jstr "claim"),
    ("content", Json.jstr "hi\u2028!")]

/-- A concrete clean message list for the round-trip witness. -/
def c8_wit : List Json :=
  [Json.obj [("id", Json.jstr "MSG001"), ("type", Json.jstr "claim"),
     ("content", Json.jstr "hello world"), ("confidence", Json.jint 1)],
   Json.arr [Json.jint 3, Json.null, Json.jbool true, Json.jstr "x\"y"]]

theorem splitlines_go_nl (cs : List Char) :
    splitlines_go ('\n' :: cs) [] = [] :: splitlines_go cs [] := by
  cases cs with
  | nil => rfl
  | cons c t => rfl

/-- C8 counterexample: the round-trip law fails for a message containing
U+2028. `json.dumps(…, ensure_ascii=False)` leaves U+2028 unescaped, so the
serialized line is split in two by `splitlines` and each half fails
`json.loads`: `from_ndjson (to_ndjson [c8_cex])` errors (here: `none`)
instead of returning `[c8_cex]`. -/
theorem C8_roundtrip_counterexample :
    from_ndjson (to_ndjson [c8_cex]) ≠ some [c8_cex] ∧
    (py_splitlines (to_ndjson [c8_cex]).data).length = 2 := by
  refine ⟨?_, rfl⟩
  have h : from_ndjson (to_ndjson [c8_cex]) = none := rfl
  rw [h]
  exact fun hc => Option.noConfusion hc

/-- C8 (amended): for every finite sequence of messages none of whose
strings contains U+0085, U+2028 or U+2029, `from_ndjson (to_ndjson msgs)`
returns exactly the input sequence, and a blank line prepended to the
serialized text is skipped without affecting the result. -/
theorem C8_ndjson_roundtrip (msgs : List Json)
    (hclean : ∀ m ∈ msgs, jclean m = true) :
    from_ndjson (to_ndjson msgs) = some msgs ∧
    from_ndjson ⟨'\n' :: (to_ndjson msgs).data⟩ = some msgs := by
  have hprops : ∀ l ∈ msgs.map (fun m => render m),
      l ≠ [] ∧ ∀ c ∈ l, is_line_boundary c = false := by
    intro l hl
    obtain ⟨m, hm, rfl⟩ := List.mem_map.mp hl
    exact ⟨render_ne_nil m, render_no_boundary (jsize m) m le_rfl (hclean m hm)⟩
  have h1 : from_ndjson (to_ndjson msgs) = some msgs := by
    show from_ndjson_lines
      (py_splitlines (intercalate_nl (msgs.map fun m => render m))) = some msgs
    rw [py_splitlines_intercalate _ hprops]
    exact from_ndjson_lines_renders msgs
  refine ⟨h1, ?_⟩
  show from_ndjson_lines
    (splitlines_go ('\n' :: intercalate_nl (msgs.map fun m => render m)) []) = some msgs
  rw [splitlines_go_nl]
  show from_ndjson_lines
    (py_splitlines (intercalate_nl (msgs.map fun m => render m))) = some msgs
  rw [py_splitlines_intercalate _ hprops]
  exact from_ndjson_lines_renders msgs

/-- Witness for C8: a concrete clean message list satisfies the hypothesis
and round-trips. -/
theorem C8_ndjson_roundtrip_witness :
    (∀ m ∈ c8_wit, jclean m = true) ∧
    (from_ndjson (to_ndjson c8_wit) = some c8_wit ∧
      from_ndjson ⟨'\n' :: (to_ndjson c8_wit).data⟩ = some c8_wit) :=
  ⟨by decide, C8_ndjson_roundtrip c8_wit (by decide)⟩

end VLP
